import Mathlib

/-!
Validator liveness tracking and downtime slashing (x/slashing keeper)

A shallow embedding of `HandleValidatorSignatureWithParams`
(`x/slashing/keeper/infractions.go`) and of the collaborators it talks to, of the
slashing entry points and the pruning of deprecated bit arrays of
`x/slashing/keeper/keeper.go`, and of the period loops of
`x/auth/vesting/client/cli/tx.go`.

Modelling conventions

* Go `int64` values (heights, counters, window lengths, powers) are `Int`.
  The sum `StartHeight + SignedBlocksWindow` of line 109 leaves the 64-bit range
  for a large window or start height; it wraps as in Go (`wrapInt64`). The
  remainder operator `%` of Go truncates toward zero and is `Int.tmod`.
* `sdk.Dec` is a fixed-point decimal with 18 fractional digits; a `Dec` here is
  the underlying integer, i.e. the value multiplied by `10^18`.
* A consensus address is an identifier with decidable equality (`Nat`).
* A Go `panic` is the `Except.error` result; a normal return carries the new
  store, the writes issued to the store (in order), the calls made to the
  staking keeper (in order) and the events emitted (in order). A panic carries
  the same record for what had been done when it was raised.
* The staking keeper is an interface: its answers are the fields of
  `StakingKeeper`, its state-changing methods are recorded as `StakingCall`s.
* Between two calls the external re-bonding hook may replace the start height of
  a record; histories that contain such steps are `runSteps`.
-/

namespace Slashing

/-! ## Data model -/

/-- Consensus address of a validator (`sdk.ConsAddress`). -/
abbrev ConsAddress := Nat

/-- Fixed-point decimal `sdk.Dec`: the stored integer, value times `10^18`. -/
abbrev Dec := Int

/-- Scaling factor of `sdk.Dec` (18 decimal places). -/
def decPrecision : Int := 1000000000000000000

/-- The rational number denoted by a `Dec`. -/
def Dec.toRat (d : Dec) : ℚ := (d : ℚ) / (decPrecision : ℚ)

/-- Module parameters (`types.Params`). -/
structure Params where
  signedBlocksWindow : Int
  minSignedPerWindow : Dec
  downtimeJailDuration : Int
  slashFractionDoubleSign : Dec
  slashFractionDowntime : Dec
deriving DecidableEq, Repr

/-- Signing info record of one validator (`types.ValidatorSigningInfo`), with
the fields the handler reads or writes. -/
structure ValidatorSigningInfo where
  address : ConsAddress
  startHeight : Int
  jailedUntil : Int
  missedBlocksCounter : Int
deriving DecidableEq, Repr

/-- Infraction reasons (`stakingtypes.Infraction`), an `int32` enumeration:
`INFRACTION_UNSPECIFIED`, `INFRACTION_DOUBLE_SIGN`, `INFRACTION_DOWNTIME`, or any
other number. -/
inductive Infraction where
  | unspecified
  | doubleSign
  | downtime
  | other (value : Int)
deriving DecidableEq, Repr

/-- What the handler observes of a validator returned by the staking keeper
(`stakingtypes.ValidatorI`): its `IsJailed()` flag. -/
structure Validator where
  jailed : Bool
deriving DecidableEq, Repr

/-- Method `IsJailed` of a validator. -/
def Validator.IsJailed (v : Validator) : Bool := v.jailed

/-- The answers of the staking keeper (`types.StakingKeeper`) during one call:
`IsValidatorJailed`, `ValidatorByConsAddr` (`none` is the nil validator) and the
amount of coins `SlashWithInfractionReason` reports as burned. -/
structure StakingKeeper where
  IsValidatorJailed : ConsAddress → Bool
  ValidatorByConsAddr : ConsAddress → Option Validator
  coinsBurned : ConsAddress → Int → Int → Dec → Infraction → Int

/-- State-changing calls made to the staking keeper. -/
inductive StakingCall where
  | SlashWithInfractionReason (consAddr : ConsAddress) (height : Int) (power : Int)
      (fraction : Dec) (infraction : Infraction)
  | Jail (consAddr : ConsAddress)
deriving DecidableEq, Repr

/-- Event types of the module (`types.EventTypeLiveness`, `types.EventTypeSlash`). -/
inductive EventType where
  | liveness
  | slash
deriving DecidableEq, Repr

/-- Attribute keys of the module's events. -/
inductive AttributeKey where
  | address
  | missedBlocks
  | height
  | power
  | reason
  | jailed
  | burnedCoins
deriving DecidableEq, Repr

/-- Attribute values: an address, a number printed with `%d`, or one of the
reason constants. -/
inductive AttributeValue where
  | addr (a : ConsAddress)
  | num (n : Int)
  | missingSignature
  | doubleSign
  | unspecified
deriving DecidableEq, Repr

/-- An event: its type and its ordered attributes. -/
structure Event where
  type : EventType
  attributes : List (AttributeKey × AttributeValue)
deriving DecidableEq, Repr

/-- The block context (`sdk.Context`): height and time of the current block, and
the constant `sdk.ValidatorUpdateDelay`, whose declaration is outside this
module and which is therefore carried as a parameter. -/
structure Context where
  blockHeight : Int
  blockTime : Int
  validatorUpdateDelay : Int
deriving DecidableEq, Repr

/-- The part of the module's store the handler works on: the signing-info
records, the missed-block bitmaps and the stored parameters. -/
structure Store where
  signingInfos : ConsAddress → Option ValidatorSigningInfo
  missedBlocks : ConsAddress → Int → Bool
  params : Params

/-- Reasons for which the handler panics. -/
inductive Panic where
  | signingInfoNotFound
  | divideByZero
  | invalidStartHeight
deriving DecidableEq, Repr

/-- Writes to the module's store, as the handler issues them:
`SetValidatorSigningInfo`, `SetMissedBlockBitmapValue` and
`DeleteMissedBlockBitmap`. -/
inductive StoreWrite where
  | setSigningInfo (consAddr : ConsAddress) (info : ValidatorSigningInfo)
  | setBit (consAddr : ConsAddress) (index : Int) (missed : Bool)
  | deleteBitmap (consAddr : ConsAddress)
deriving DecidableEq, Repr

/-- What a call has done: the store it leaves, the writes it issued, the calls
it made to the staking keeper and the events it emitted. -/
structure Effects where
  store : Store
  writes : List StoreWrite
  calls : List StakingCall
  events : List Event

/-- A panic: its reason and what the call had done when it was raised. -/
structure Abort where
  reason : Panic
  done : Effects

/-! ## Store accessors -/

/-- Modelled from the spec: `GetValidatorSigningInfo` (signing_info.go) is the
`Get(addr) -> (info, found)` of the signing-info store. -/
def GetValidatorSigningInfo (st : Store) (consAddr : ConsAddress) :
    Option ValidatorSigningInfo :=
  st.signingInfos consAddr

/-- Modelled from the spec: `SetValidatorSigningInfo` (signing_info.go) is the
`Set(addr, info)` of the signing-info store. -/
def SetValidatorSigningInfo (st : Store) (consAddr : ConsAddress)
    (info : ValidatorSigningInfo) : Store :=
  { st with signingInfos := fun a => if a = consAddr then some info else st.signingInfos a }

/-- Modelled from the spec: `GetMissedBlockBitmapValue` (signing_info.go) is the
`GetBit(addr, index) -> bool` of the bitmap store; the store of the interface
has no failure mode, so the error result of the Go function never occurs. -/
def GetMissedBlockBitmapValue (st : Store) (consAddr : ConsAddress) (index : Int) : Bool :=
  st.missedBlocks consAddr index

/-- Modelled from the spec: `SetMissedBlockBitmapValue` (signing_info.go) is the
`SetBit(addr, index, bool)` of the bitmap store. -/
def SetMissedBlockBitmapValue (st : Store) (consAddr : ConsAddress) (index : Int)
    (missed : Bool) : Store :=
  { st with missedBlocks := fun a i =>
      if a = consAddr ∧ i = index then missed else st.missedBlocks a i }

/-- Modelled from the spec: `DeleteMissedBlockBitmap` (signing_info.go) is the
`ClearAll(addr)` of the bitmap store, a full clear of the validator's window. -/
def DeleteMissedBlockBitmap (st : Store) (consAddr : ConsAddress) : Store :=
  { st with missedBlocks := fun a i => if a = consAddr then false else st.missedBlocks a i }

/-- Modelled from the spec: `Keeper.GetParams` (params.go) reads the stored
parameters. -/
def GetParams (st : Store) : Params := st.params

/-- Modelled from the spec: `Keeper.SlashFractionDowntime` (params.go) is the
`slashFractionDowntime` parameter of the chain. -/
def SlashFractionDowntime (st : Store) : Dec := (GetParams st).slashFractionDowntime

/-- Modelled from the spec: `Keeper.DowntimeJailDuration` (params.go) is the
`downtimeJailDuration` parameter of the chain. -/
def DowntimeJailDuration (st : Store) : Int := (GetParams st).downtimeJailDuration

/-- Modelled from the spec: `Params.MinSignedPerWindowInt` (types/params.go) is
`floor(minSignedPerWindow * signedBlocksWindow)`, computed on the fixed-point
representation. -/
def Params.MinSignedPerWindowInt (p : Params) : Int :=
  (p.minSignedPerWindow * p.signedBlocksWindow) / decPrecision

/-! ## The handler -/

/-- Two's-complement wrap-around of Go's `int64` arithmetic: the value of the
64-bit result of an operation whose mathematical result is `x`. -/
def wrapInt64 (x : Int) : Int :=
  (x + 9223372036854775808) % 18446744073709551616 - 9223372036854775808

/-- The integer is a value of `int64`. -/
def fitsInt64 (x : Int) : Prop :=
  -9223372036854775808 ≤ x ∧ x ≤ 9223372036854775807

instance (x : Int) : Decidable (fitsInt64 x) := by
  unfold fitsInt64; infer_instance

/-- The largest `int64`. -/
def maxInt64 : Int := 9223372036854775807

/-- Relative index of a height in the window, line 49:
`(height - signInfo.StartHeight) % signedBlocksWindow` with Go's truncated `%`. -/
def windowIndex (height startHeight signedBlocksWindow : Int) : Int :=
  (height - startHeight).tmod signedBlocksWindow

/-- Result of the `switch` of lines 61-86. -/
structure BitUpdate where
  store : Store
  writes : List StoreWrite
  signInfo : ValidatorSigningInfo
  modifiedSignInfo : Bool

/-- The `switch` of lines 61-86: update of the bit array and of the counter. -/
def updateBitAndCounter (st : Store) (consAddr : ConsAddress) (signInfo : ValidatorSigningInfo)
    (index : Int) (previous missed : Bool) : BitUpdate :=
  if !previous && missed then
    { store := SetMissedBlockBitmapValue st consAddr index true
      writes := [.setBit consAddr index true]
      signInfo := { signInfo with missedBlocksCounter := signInfo.missedBlocksCounter + 1 }
      modifiedSignInfo := true }
  else if previous && !missed then
    { store := SetMissedBlockBitmapValue st consAddr index false
      writes := [.setBit consAddr index false]
      signInfo := { signInfo with missedBlocksCounter := signInfo.missedBlocksCounter - 1 }
      modifiedSignInfo := true }
  else
    { store := st, writes := [], signInfo := signInfo, modifiedSignInfo := false }

/-- The liveness event of lines 91-98. -/
def livenessEvent (consAddr : ConsAddress) (missedBlocksCounter height : Int) : Event :=
  { type := .liveness
    attributes := [(.address, .addr consAddr), (.missedBlocks, .num missedBlocksCounter),
      (.height, .num height)] }

/-- The slash event of lines 126-135. -/
def downtimeSlashEvent (consAddr : ConsAddress) (power coinsBurned : Int) : Event :=
  { type := .slash
    attributes := [(.address, .addr consAddr), (.power, .num power),
      (.reason, .missingSignature), (.jailed, .addr consAddr),
      (.burnedCoins, .num coinsBurned)] }

/-- The threshold `maxMissed` of line 110. -/
def maxMissed (params : Params) : Int :=
  params.signedBlocksWindow - params.MinSignedPerWindowInt

/-- `HandleValidatorSignatureWithParams` (lines 18-171). -/
def HandleValidatorSignatureWithParams (sk : StakingKeeper) (ctx : Context) (st : Store)
    (params : Params) (addr : ConsAddress) (power : Int) (signed : Bool) :
    Except Abort Effects :=
  let height := ctx.blockHeight
  let consAddr := addr
  -- don't update missed blocks when validator's jailed
  if sk.IsValidatorJailed consAddr then
    .ok { store := st, writes := [], calls := [], events := [] }
  else
    match GetValidatorSigningInfo st consAddr with
    | none =>
      .error ⟨.signingInfoNotFound, { store := st, writes := [], calls := [], events := [] }⟩
    | some signInfo =>
      let signedBlocksWindow := params.signedBlocksWindow
      -- integer remainder by zero is a run-time panic
      if signedBlocksWindow = 0 then
        .error ⟨.divideByZero, { store := st, writes := [], calls := [], events := [] }⟩
      else
        let index := windowIndex height signInfo.startHeight signedBlocksWindow
        if signInfo.startHeight > height then
          .error ⟨.invalidStartHeight, { store := st, writes := [], calls := [], events := [] }⟩
        else
          let previous := GetMissedBlockBitmapValue st consAddr index
          let missed := !signed
          let upd := updateBitAndCounter st consAddr signInfo index previous missed
          let st1 := upd.store
          let signInfo1 := upd.signInfo
          let events1 : List Event :=
            if missed then [livenessEvent consAddr signInfo1.missedBlocksCounter height] else []
          -- the int64 sum of line 109 wraps
          let minHeight := wrapInt64 (signInfo1.startHeight + params.signedBlocksWindow)
          if height > minHeight ∧ signInfo1.missedBlocksCounter > maxMissed params then
            match sk.ValidatorByConsAddr consAddr with
            | some validator =>
              if !validator.IsJailed then
                let distributionHeight := height - ctx.validatorUpdateDelay - 1
                let fraction := SlashFractionDowntime st1
                let coinsBurned :=
                  sk.coinsBurned consAddr distributionHeight power fraction .downtime
                let signInfo2 : ValidatorSigningInfo :=
                  { signInfo1 with
                    jailedUntil := ctx.blockTime + DowntimeJailDuration st1
                    missedBlocksCounter := 0 }
                let st2 := DeleteMissedBlockBitmap st1 consAddr
                .ok { store := SetValidatorSigningInfo st2 consAddr signInfo2
                      writes := upd.writes
                        ++ [.deleteBitmap consAddr, .setSigningInfo consAddr signInfo2]
                      calls := [.SlashWithInfractionReason consAddr distributionHeight power
                                  fraction .downtime, .Jail consAddr]
                      events := events1 ++ [downtimeSlashEvent consAddr power coinsBurned] }
              else
                .ok { store := SetValidatorSigningInfo st1 consAddr signInfo1
                      writes := upd.writes ++ [.setSigningInfo consAddr signInfo1]
                      calls := [], events := events1 }
            | none =>
              .ok { store := SetValidatorSigningInfo st1 consAddr signInfo1
                    writes := upd.writes ++ [.setSigningInfo consAddr signInfo1]
                    calls := [], events := events1 }
          else if upd.modifiedSignInfo then
            .ok { store := SetValidatorSigningInfo st1 consAddr signInfo1
                  writes := upd.writes ++ [.setSigningInfo consAddr signInfo1]
                  calls := [], events := events1 }
          else
            .ok { store := st1, writes := upd.writes, calls := [], events := events1 }

/-- `HandleValidatorSignature` (lines 13-16): the handler with the stored parameters. -/
def HandleValidatorSignature (sk : StakingKeeper) (ctx : Context) (st : Store)
    (addr : ConsAddress) (power : Int) (signed : Bool) : Except Abort Effects :=
  HandleValidatorSignatureWithParams sk ctx st (GetParams st) addr power signed

/-! ## Observations on the effects of a call -/

/-- The call is a slash. -/
def StakingCall.isSlash : StakingCall → Bool
  | .SlashWithInfractionReason _ _ _ _ _ => true
  | .Jail _ => false

/-- The call is a jail. -/
def StakingCall.isJail : StakingCall → Bool
  | .SlashWithInfractionReason _ _ _ _ _ => false
  | .Jail _ => true

/-- Number of slashes asked of the staking keeper. -/
def Effects.slashCalls (e : Effects) : Nat := e.calls.countP StakingCall.isSlash

/-- Number of jailings asked of the staking keeper. -/
def Effects.jailCalls (e : Effects) : Nat := e.calls.countP StakingCall.isJail

/-- The call executed the punishment: the staking keeper was asked to slash and
to jail. -/
def Effects.punished (e : Effects) : Prop := 0 < e.slashCalls ∧ 0 < e.jailCalls

instance (e : Effects) : Decidable e.punished := by
  unfold Effects.punished; infer_instance

/-- The outcome of the `switch` of lines 61-86 for a call at `height` with flag
`signed` on the record `signInfo` (lines 49, 57 and 62 give its arguments). -/
def bitUpdate (st : Store) (params : Params) (addr : ConsAddress)
    (signInfo : ValidatorSigningInfo) (height : Int) (signed : Bool) : BitUpdate :=
  updateBitAndCounter st addr signInfo
    (windowIndex height signInfo.startHeight params.signedBlocksWindow)
    (GetMissedBlockBitmapValue st addr
      (windowIndex height signInfo.startHeight params.signedBlocksWindow))
    (!signed)

/-- The counter held in the local `signInfo` after the `switch` of lines 61-86. -/
def updatedCounter (st : Store) (params : Params) (addr : ConsAddress)
    (signInfo : ValidatorSigningInfo) (height : Int) (signed : Bool) : Int :=
  (bitUpdate st params addr signInfo height signed).signInfo.missedBlocksCounter

/-- The threshold test of line 113, with `minHeight` the `int64` sum of line 109. -/
def thresholdReached (st : Store) (params : Params) (addr : ConsAddress)
    (info : ValidatorSigningInfo) (height : Int) (signed : Bool) : Prop :=
  height > wrapInt64 (info.startHeight + params.signedBlocksWindow)
    ∧ updatedCounter st params addr info height signed > maxMissed params

instance (st : Store) (params : Params) (addr : ConsAddress) (info : ValidatorSigningInfo)
    (height : Int) (signed : Bool) :
    Decidable (thresholdReached st params addr info height signed) := by
  unfold thresholdReached; infer_instance

/-- The liveness events of a call (lines 90-98). -/
def livenessEvents (addr : ConsAddress) (counter height : Int) (signed : Bool) : List Event :=
  if !signed then [livenessEvent addr counter height] else []

/-- What a call that takes the punishment path returns (lines 114-157, 169). -/
def punishEffects (sk : StakingKeeper) (ctx : Context) (st : Store) (params : Params)
    (addr : ConsAddress) (power : Int) (signed : Bool) (info : ValidatorSigningInfo) : Effects :=
  { store :=
      SetValidatorSigningInfo
        (DeleteMissedBlockBitmap (bitUpdate st params addr info ctx.blockHeight signed).store addr)
        addr
        { (bitUpdate st params addr info ctx.blockHeight signed).signInfo with
          jailedUntil := ctx.blockTime + DowntimeJailDuration st
          missedBlocksCounter := 0 }
    writes :=
      (bitUpdate st params addr info ctx.blockHeight signed).writes
        ++ [.deleteBitmap addr,
            .setSigningInfo addr
              { (bitUpdate st params addr info ctx.blockHeight signed).signInfo with
                jailedUntil := ctx.blockTime + DowntimeJailDuration st
                missedBlocksCounter := 0 }]
    calls :=
      [.SlashWithInfractionReason addr (ctx.blockHeight - ctx.validatorUpdateDelay - 1)
          power (SlashFractionDowntime st) .downtime, .Jail addr]
    events :=
      livenessEvents addr (updatedCounter st params addr info ctx.blockHeight signed)
          ctx.blockHeight signed
        ++ [downtimeSlashEvent addr power
              (sk.coinsBurned addr (ctx.blockHeight - ctx.validatorUpdateDelay - 1) power
                (SlashFractionDowntime st) .downtime)] }

/-- What a call returns when the threshold is reached but the validator is absent
or already jailed (lines 114-115, 158-164, 169). -/
def skipEffects (ctx : Context) (st : Store) (params : Params)
    (addr : ConsAddress) (signed : Bool) (info : ValidatorSigningInfo) : Effects :=
  { store :=
      SetValidatorSigningInfo (bitUpdate st params addr info ctx.blockHeight signed).store
        addr (bitUpdate st params addr info ctx.blockHeight signed).signInfo
    writes :=
      (bitUpdate st params addr info ctx.blockHeight signed).writes
        ++ [.setSigningInfo addr (bitUpdate st params addr info ctx.blockHeight signed).signInfo]
    calls := []
    events :=
      livenessEvents addr (updatedCounter st params addr info ctx.blockHeight signed)
        ctx.blockHeight signed }

/-- What a call returns when the threshold is not reached (lines 167-170). -/
def belowEffects (ctx : Context) (st : Store) (params : Params)
    (addr : ConsAddress) (signed : Bool) (info : ValidatorSigningInfo) : Effects :=
  { store :=
      if (bitUpdate st params addr info ctx.blockHeight signed).modifiedSignInfo then
        SetValidatorSigningInfo (bitUpdate st params addr info ctx.blockHeight signed).store
          addr (bitUpdate st params addr info ctx.blockHeight signed).signInfo
      else (bitUpdate st params addr info ctx.blockHeight signed).store
    writes :=
      if (bitUpdate st params addr info ctx.blockHeight signed).modifiedSignInfo then
        (bitUpdate st params addr info ctx.blockHeight signed).writes
          ++ [.setSigningInfo addr (bitUpdate st params addr info ctx.blockHeight signed).signInfo]
      else (bitUpdate st params addr info ctx.blockHeight signed).writes
    calls := []
    events :=
      livenessEvents addr (updatedCounter st params addr info ctx.blockHeight signed)
        ctx.blockHeight signed }

/-! ## Sequences of calls and the counter invariant -/

/-- One call of the handler: the staking keeper as it answers during the call,
the block context, and the arguments. -/
structure Call where
  sk : StakingKeeper
  ctx : Context
  addr : ConsAddress
  power : Int
  signed : Bool

/-- A sequence of calls with fixed parameters, each on the store left by the
previous one; a panic aborts the sequence. -/
def runCalls (params : Params) : Store → List Call → Except Abort Store
  | st, [] => .ok st
  | st, c :: cs =>
    match HandleValidatorSignatureWithParams c.sk c.ctx st params c.addr c.power c.signed with
    | .error p => .error p
    | .ok e => runCalls params e.store cs

/-- The write is a `SetValidatorSigningInfo`. -/
def StoreWrite.isSetSigningInfo : StoreWrite → Bool
  | .setSigningInfo _ _ => true
  | .setBit _ _ _ => false
  | .deleteBitmap _ => false

/-- The write is a `DeleteMissedBlockBitmap`. -/
def StoreWrite.isDeleteBitmap : StoreWrite → Bool
  | .setSigningInfo _ _ => false
  | .setBit _ _ _ => false
  | .deleteBitmap _ => true

/-- The event has type `slash`. -/
def Event.isSlash (ev : Event) : Bool := decide (ev.type = .slash)

/-- The event `Keeper.Jail` emits (keeper.go lines 107-112): type `slash` with the
single attribute `jailed`. -/
def jailEvent (consAddr : ConsAddress) : Event :=
  { type := .slash, attributes := [(.jailed, .addr consAddr)] }

/-- The start height stored for a validator, if it has a record. -/
def storedStartHeight (st : Store) (addr : ConsAddress) : Option Int :=
  (GetValidatorSigningInfo st addr).map (fun info => info.startHeight)

/-- The counter stored for a validator, if it has a record. -/
def storedCounter (st : Store) (addr : ConsAddress) : Option Int :=
  (GetValidatorSigningInfo st addr).map (fun info => info.missedBlocksCounter)

/-! ## Sequences with re-bonding between the calls -/

/-- Modelled from the spec: the external re-bonding hook (hooks.go) is not part
of the handler; the spec says that `startHeight` is set externally on
(re)bonding and is corrected only by that hook. It replaces the start height of
an existing record and touches nothing else. -/
def rebond (st : Store) (addr : ConsAddress) (height : Int) : Store :=
  match GetValidatorSigningInfo st addr with
  | some info => SetValidatorSigningInfo st addr { info with startHeight := height }
  | none => st

/-- One step of a history: a call of the handler or a re-bonding. -/
inductive Step where
  | call (c : Call)
  | rebond (addr : ConsAddress) (height : Int)

/-- A history of calls and re-bondings with fixed parameters; a panic aborts it. -/
def runSteps (params : Params) : Store → List Step → Except Abort Store
  | st, [] => .ok st
  | st, .call c :: steps =>
    match HandleValidatorSignatureWithParams c.sk c.ctx st params c.addr c.power c.signed with
    | .error p => .error p
    | .ok e => runSteps params e.store steps
  | st, .rebond addr height :: steps => runSteps params (rebond st addr height) steps

/-- The step is a call for `addr` with `signed = false`. -/
def Step.isMissedCallOn (addr : ConsAddress) : Step → Bool
  | .call c => decide (c.addr = addr) && !c.signed
  | .rebond _ _ => false

/-- Number of calls for `addr` with `signed = false` in a history. -/
def missedCalls (addr : ConsAddress) (steps : List Step) : Nat :=
  steps.countP (Step.isMissedCallOn addr)

/-! ## The slashing entry points of the keeper (keeper.go) -/

/-- What `Keeper.Slash`, `Keeper.SlashWithInfractionReason` and `Keeper.Jail` do:
the calls they make to the staking keeper and the events they emit. -/
structure KeeperEffects where
  calls : List StakingCall
  events : List Event
deriving DecidableEq, Repr

/-- `Keeper.SlashWithInfractionReason` (keeper.go lines 81-101), with the
parameters in the order of the Go signature: fraction, power, distribution
height. -/
def Keeper.SlashWithInfractionReason (sk : StakingKeeper) (consAddr : ConsAddress)
    (fraction : Dec) (power distributionHeight : Int) (infraction : Infraction) :
    KeeperEffects :=
  let coinsBurned := sk.coinsBurned consAddr distributionHeight power fraction infraction
  let reasonAttr : AttributeKey × AttributeValue :=
    match infraction with
    | .doubleSign => (.reason, .doubleSign)
    | .downtime => (.reason, .missingSignature)
    | _ => (.reason, .unspecified)
  { calls := [.SlashWithInfractionReason consAddr distributionHeight power fraction infraction]
    events :=
      [{ type := .slash
         attributes := [(.address, .addr consAddr), (.power, .num power), reasonAttr,
           (.burnedCoins, .num coinsBurned)] }] }

/-- `Keeper.Slash` (keeper.go lines 75-77). -/
def Keeper.Slash (sk : StakingKeeper) (consAddr : ConsAddress) (fraction : Dec)
    (power distributionHeight : Int) : KeeperEffects :=
  Keeper.SlashWithInfractionReason sk consAddr fraction power distributionHeight .unspecified

/-- `Keeper.Jail` (keeper.go lines 105-113). -/
def Keeper.Jail (consAddr : ConsAddress) : KeeperEffects :=
  { calls := [.Jail consAddr], events := [jailEvent consAddr] }

/-! ## Pruning of the deprecated missed-block bit arrays (keeper.go) -/

/-- The part of the store `DeleteDeprecatedValidatorMissedBlockBitArray` works
on: whether the key `IsPruningKey` is present, and, for each signing-info record
in the order of the prefix iterator, the validator's address with the deprecated
missed-block bit-array entries stored under it, in the order of their iterator. -/
structure PruneStore where
  isPruning : Bool
  validators : List (ConsAddress × List Int)
deriving DecidableEq, Repr

/-- The inner loop (lines 139-145) from a given `iterationCounter`: the entries
that are left and the counter afterwards. -/
def pruneEntries (iterationLimit : Int) : List Int → Int → List Int × Int
  | [], iterationCounter => ([], iterationCounter)
  | _ :: rest, iterationCounter =>
    -- store.Delete(iter.Key()); iterationCounter++
    if iterationCounter + 1 ≥ iterationLimit then (rest, iterationCounter + 1)
    else pruneEntries iterationLimit rest (iterationCounter + 1)

/-- The outer loop (lines 131-151) from a given `iterationCounter`. -/
def pruneValidators (iterationLimit : Int) :
    List (ConsAddress × List Int) → Int → List (ConsAddress × List Int) × Int
  | [], iterationCounter => ([], iterationCounter)
  | (address, entries) :: rest, iterationCounter =>
    let inner := pruneEntries iterationLimit entries iterationCounter
    if inner.2 ≥ iterationLimit then ((address, inner.1) :: rest, inner.2)
    else
      let outer := pruneValidators iterationLimit rest inner.2
      ((address, inner.1) :: outer.1, outer.2)

/-- `DeleteDeprecatedValidatorMissedBlockBitArray` (keeper.go lines 120-159). -/
def DeleteDeprecatedValidatorMissedBlockBitArray (st : PruneStore) (iterationLimit : Int) :
    PruneStore :=
  if !st.isPruning then st
  else
    let r := pruneValidators iterationLimit st.validators 0
    -- the pruning key is deleted when nothing was deleted
    { isPruning := if r.2 = 0 then false else st.isPruning, validators := r.1 }

/-- Number of deprecated entries stored under a list of validators. -/
def countEntries (validators : List (ConsAddress × List Int)) : Nat :=
  (validators.map (fun v => v.2.length)).sum

/-- Number of deprecated entries a call deletes. -/
def deletedEntries (st : PruneStore) (iterationLimit : Int) : Int :=
  (countEntries st.validators : Int)
    - (countEntries (DeleteDeprecatedValidatorMissedBlockBitArray st iterationLimit).validators
        : Int)

/-! ## Sample data -/

/-- A staking keeper that gives the same answers for every address. -/
def sampleStaking (jailed : Bool) (validator : Option Validator) : StakingKeeper :=
  { IsValidatorJailed := fun _ => jailed
    ValidatorByConsAddr := fun _ => validator
    coinsBurned := fun _ _ power _ _ => power }

/-- Parameters with the given window and minimum signed fraction. -/
def sampleParams (window : Int) (minSigned : Dec) : Params :=
  { signedBlocksWindow := window
    minSignedPerWindow := minSigned
    downtimeJailDuration := 600
    slashFractionDoubleSign := 50000000000000000
    slashFractionDowntime := 10000000000000000 }

/-- A store with the single validator `7`, whose bitmap has exactly the bits of
`[0, missedUpTo)` set. -/
def sampleStore (params : Params) (startHeight counter missedUpTo : Int) : Store :=
  { signingInfos := fun a =>
      if a = 7 then
        some { address := 7, startHeight := startHeight, jailedUntil := 0,
               missedBlocksCounter := counter }
      else none
    missedBlocks := fun a i => decide (a = 7 ∧ 0 ≤ i ∧ i < missedUpTo)
    params := params }

/-- A store without any signing info. -/
def emptyStore (params : Params) : Store :=
  { signingInfos := fun _ => none, missedBlocks := fun _ _ => false, params := params }

/-- A call for validator `7` with power 10 at the given height, against a staking
keeper that knows the validator as not jailed. -/
def sampleCall (height : Int) (signed : Bool) : Call :=
  { sk := sampleStaking false (some ⟨false⟩)
    ctx := ⟨height, 1000, 1⟩
    addr := 7
    power := 10
    signed := signed }

/-- One half as a `Dec`. -/
def decHalf : Dec := 500000000000000000

/-- Three quarters as a `Dec`. -/
def decThreeQuarters : Dec := 750000000000000000

/-- One as a `Dec`. -/
def decOne : Dec := 1000000000000000000

end Slashing

/-! ## Period validation of the vesting commands (x/auth/vesting/client/cli/tx.go) -/

namespace Vesting

/-- `InputPeriod` (tx.go lines 138-141). -/
structure InputPeriod where
  Coins : String
  Length : Int
deriving DecidableEq, Repr

/-- `types.Period`, over the type of parsed coins. -/
structure Period (Coins : Type) where
  Length : Int
  Amount : Coins
deriving DecidableEq, Repr

/-- Errors of the period loops: the error of `sdk.ParseCoinsNormalized`, or the
`invalid period length of %d in period %d, length must be greater than 0` error. -/
inductive PeriodError where
  | parseCoins (msg : String)
  | invalidPeriodLength (length : Int) (index : Nat)
deriving DecidableEq, Repr

/-- The period loop of `create-periodic-vesting-account` (tx.go lines 192-204),
from index `i` with the periods appended so far; `ParseCoinsNormalized` is the
coin parser of the sdk. -/
def createPeriodicPeriodsFrom {Coins : Type} (ParseCoinsNormalized : String → Except String Coins) :
    Nat → List InputPeriod → List (Period Coins) → Except PeriodError (List (Period Coins))
  | _, [], periods => .ok periods
  | i, p :: rest, periods =>
    match ParseCoinsNormalized p.Coins with
    | .error err => .error (.parseCoins err)
    | .ok amount =>
      if p.Length < 0 then .error (.invalidPeriodLength p.Length i)
      else
        createPeriodicPeriodsFrom ParseCoinsNormalized (i + 1) rest
          (periods ++ [{ Length := p.Length, Amount := amount }])

/-- The period loop of `create-periodic-vesting-account` on the periods of the
input file. -/
def createPeriodicPeriods {Coins : Type} (ParseCoinsNormalized : String → Except String Coins)
    (inputs : List InputPeriod) : Except PeriodError (List (Period Coins)) :=
  createPeriodicPeriodsFrom ParseCoinsNormalized 0 inputs []

/-- The period loop of `readScheduleFile` (tx.go lines 236-246), from index `i`
with the periods filled in so far. -/
def readSchedulePeriodsFrom {Coins : Type} (ParseCoinsNormalized : String → Except String Coins) :
    Nat → List InputPeriod → List (Period Coins) → Except PeriodError (List (Period Coins))
  | _, [], periods => .ok periods
  | i, p :: rest, periods =>
    match ParseCoinsNormalized p.Coins with
    | .error err => .error (.parseCoins err)
    | .ok amount =>
      if p.Length < 1 then .error (.invalidPeriodLength p.Length i)
      else
        readSchedulePeriodsFrom ParseCoinsNormalized (i + 1) rest
          (periods ++ [{ Length := p.Length, Amount := amount }])

/-- The period loop of `readScheduleFile` on the periods of the input file. -/
def readSchedulePeriods {Coins : Type} (ParseCoinsNormalized : String → Except String Coins)
    (inputs : List InputPeriod) : Except PeriodError (List (Period Coins)) :=
  readSchedulePeriodsFrom ParseCoinsNormalized 0 inputs []

/-- A coin parser that accepts every non-empty string as it is. -/
def sampleParseCoins (s : String) : Except String String :=
  if s = "" then .error "empty coins" else .ok s

end Vesting

namespace Slashing

/-! ## Lemmas about the handler -/

/-! ### The ways in which a call returns -/

/-- Jailed path (lines 25-28). -/
theorem jailed_validator_noop_eq (sk : StakingKeeper) (ctx : Context) (st : Store)
    (params : Params) (addr : ConsAddress) (power : Int) (signed : Bool)
    (hj : sk.IsValidatorJailed addr = true) :
    HandleValidatorSignatureWithParams sk ctx st params addr power signed
      = .ok { store := st, writes := [], calls := [], events := [] } := by
  simp [HandleValidatorSignatureWithParams, hj]

theorem updateBitAndCounter_startHeight (st : Store) (a : ConsAddress)
    (info : ValidatorSigningInfo) (i : Int) (p m : Bool) :
    (updateBitAndCounter st a info i p m).signInfo.startHeight = info.startHeight := by
  unfold updateBitAndCounter; split_ifs <;> rfl

theorem updateBitAndCounter_jailedUntil (st : Store) (a : ConsAddress)
    (info : ValidatorSigningInfo) (i : Int) (p m : Bool) :
    (updateBitAndCounter st a info i p m).signInfo.jailedUntil = info.jailedUntil := by
  unfold updateBitAndCounter; split_ifs <;> rfl

theorem updateBitAndCounter_address (st : Store) (a : ConsAddress)
    (info : ValidatorSigningInfo) (i : Int) (p m : Bool) :
    (updateBitAndCounter st a info i p m).signInfo.address = info.address := by
  unfold updateBitAndCounter; split_ifs <;> rfl

theorem updateBitAndCounter_params (st : Store) (a : ConsAddress)
    (info : ValidatorSigningInfo) (i : Int) (p m : Bool) :
    (updateBitAndCounter st a info i p m).store.params = st.params := by
  unfold updateBitAndCounter; split_ifs <;> rfl

theorem updateBitAndCounter_signingInfos (st : Store) (a : ConsAddress)
    (info : ValidatorSigningInfo) (i : Int) (p m : Bool) :
    (updateBitAndCounter st a info i p m).store.signingInfos = st.signingInfos := by
  unfold updateBitAndCounter; split_ifs <;> rfl

theorem punished_iff_calls (e : Effects) :
    e.punished ↔ (0 < e.calls.countP StakingCall.isSlash ∧ 0 < e.calls.countP StakingCall.isJail) :=
  Iff.rfl

theorem punishEffects_punished (sk : StakingKeeper) (ctx : Context) (st : Store)
    (params : Params) (addr : ConsAddress) (power : Int) (signed : Bool)
    (info : ValidatorSigningInfo) :
    (punishEffects sk ctx st params addr power signed info).punished := by
  rw [punished_iff_calls]
  simp [punishEffects, StakingCall.isSlash, StakingCall.isJail]

theorem skipEffects_not_punished (ctx : Context) (st : Store)
    (params : Params) (addr : ConsAddress) (signed : Bool) (info : ValidatorSigningInfo) :
    ¬ (skipEffects ctx st params addr signed info).punished := by
  rw [punished_iff_calls]
  simp [skipEffects]

theorem belowEffects_not_punished (ctx : Context) (st : Store)
    (params : Params) (addr : ConsAddress) (signed : Bool) (info : ValidatorSigningInfo) :
    ¬ (belowEffects ctx st params addr signed info).punished := by
  rw [punished_iff_calls]
  simp [belowEffects]

theorem noop_not_punished (st : Store) :
    ¬ ({ store := st, writes := [], calls := [], events := [] } : Effects).punished := by
  rw [punished_iff_calls]
  simp

/-- Punishment path: threshold reached and the validator is found, not jailed. -/
theorem handle_punish (sk : StakingKeeper) (ctx : Context) (st : Store)
    (params : Params) (addr : ConsAddress) (power : Int) (signed : Bool)
    (info : ValidatorSigningInfo) (v : Validator)
    (hj : sk.IsValidatorJailed addr = false)
    (hinfo : GetValidatorSigningInfo st addr = some info)
    (hh : info.startHeight ≤ ctx.blockHeight)
    (hw : params.signedBlocksWindow ≠ 0)
    (hthr : thresholdReached st params addr info ctx.blockHeight signed)
    (hv : sk.ValidatorByConsAddr addr = some v) (hvj : v.IsJailed = false) :
    HandleValidatorSignatureWithParams sk ctx st params addr power signed
      = .ok (punishEffects sk ctx st params addr power signed info) := by
  have hh0 : ¬ info.startHeight > ctx.blockHeight := by omega
  have hthr2 := hthr
  unfold thresholdReached updatedCounter bitUpdate at hthr2
  simp only [HandleValidatorSignatureWithParams, hj, hinfo, hw, hh0,
    updateBitAndCounter_startHeight, hv, hvj, SlashFractionDowntime, DowntimeJailDuration,
    GetParams, updateBitAndCounter_params, bitUpdate, updatedCounter, livenessEvents,
    punishEffects]
  simp [hthr2]

/-- Skipped punishment: threshold reached, validator absent or jailed. -/
theorem handle_skip (sk : StakingKeeper) (ctx : Context) (st : Store)
    (params : Params) (addr : ConsAddress) (power : Int) (signed : Bool)
    (info : ValidatorSigningInfo)
    (hj : sk.IsValidatorJailed addr = false)
    (hinfo : GetValidatorSigningInfo st addr = some info)
    (hh : info.startHeight ≤ ctx.blockHeight)
    (hw : params.signedBlocksWindow ≠ 0)
    (hthr : thresholdReached st params addr info ctx.blockHeight signed)
    (hv : ∀ v, sk.ValidatorByConsAddr addr = some v → v.IsJailed = true) :
    HandleValidatorSignatureWithParams sk ctx st params addr power signed
      = .ok (skipEffects ctx st params addr signed info) := by
  have hh0 : ¬ info.startHeight > ctx.blockHeight := by omega
  have hthr2 := hthr
  unfold thresholdReached updatedCounter bitUpdate at hthr2
  simp only [HandleValidatorSignatureWithParams, hj, hinfo, hw, hh0,
    updateBitAndCounter_startHeight, bitUpdate, updatedCounter, livenessEvents, skipEffects]
  cases hl : sk.ValidatorByConsAddr addr with
  | none => simp [hthr2]
  | some v => simp [hthr2, hv v hl]

/-- Threshold not reached: the record is written back only when the switch
changed it. -/
theorem handle_below (sk : StakingKeeper) (ctx : Context) (st : Store)
    (params : Params) (addr : ConsAddress) (power : Int) (signed : Bool)
    (info : ValidatorSigningInfo)
    (hj : sk.IsValidatorJailed addr = false)
    (hinfo : GetValidatorSigningInfo st addr = some info)
    (hh : info.startHeight ≤ ctx.blockHeight)
    (hw : params.signedBlocksWindow ≠ 0)
    (hthr : ¬ thresholdReached st params addr info ctx.blockHeight signed) :
    HandleValidatorSignatureWithParams sk ctx st params addr power signed
      = .ok (belowEffects ctx st params addr signed info) := by
  have hh0 : ¬ info.startHeight > ctx.blockHeight := by omega
  have hthr2 := hthr
  unfold thresholdReached updatedCounter bitUpdate at hthr2
  simp only [HandleValidatorSignatureWithParams, hj, hinfo, hw, hh0,
    updateBitAndCounter_startHeight, bitUpdate, updatedCounter, livenessEvents, belowEffects]
  simp only [if_neg hthr2, Bool.false_eq_true, if_false]
  split_ifs <;> rfl

/-- Every way in which a call can return. -/
theorem handle_ok_cases (sk : StakingKeeper) (ctx : Context) (st : Store)
    (params : Params) (addr : ConsAddress) (power : Int) (signed : Bool) (e : Effects)
    (he : HandleValidatorSignatureWithParams sk ctx st params addr power signed = .ok e) :
    (sk.IsValidatorJailed addr = true ∧ e = { store := st, writes := [], calls := [], events := [] })
    ∨ ∃ info, sk.IsValidatorJailed addr = false
        ∧ GetValidatorSigningInfo st addr = some info
        ∧ info.startHeight ≤ ctx.blockHeight
        ∧ params.signedBlocksWindow ≠ 0
        ∧ ((thresholdReached st params addr info ctx.blockHeight signed
              ∧ (∃ v, sk.ValidatorByConsAddr addr = some v ∧ v.IsJailed = false)
              ∧ e = punishEffects sk ctx st params addr power signed info)
            ∨ (thresholdReached st params addr info ctx.blockHeight signed
              ∧ (∀ v, sk.ValidatorByConsAddr addr = some v → v.IsJailed = true)
              ∧ e = skipEffects ctx st params addr signed info)
            ∨ (¬ thresholdReached st params addr info ctx.blockHeight signed
              ∧ e = belowEffects ctx st params addr signed info)) := by
  cases hj : sk.IsValidatorJailed addr with
  | true =>
    left
    rw [jailed_validator_noop_eq sk ctx st params addr power signed hj] at he
    exact ⟨rfl, (Except.ok.inj he).symm⟩
  | false =>
    right
    cases hinfo : GetValidatorSigningInfo st addr with
    | none => simp [HandleValidatorSignatureWithParams, hj, hinfo] at he
    | some info =>
      by_cases hw : params.signedBlocksWindow = 0
      · simp [HandleValidatorSignatureWithParams, hj, hinfo, hw] at he
      by_cases hh : info.startHeight > ctx.blockHeight
      · simp [HandleValidatorSignatureWithParams, hj, hinfo, hw, hh] at he
      have hh1 : info.startHeight ≤ ctx.blockHeight := by omega
      refine ⟨info, rfl, rfl, hh1, hw, ?_⟩
      by_cases hthr : thresholdReached st params addr info ctx.blockHeight signed
      · cases hl : sk.ValidatorByConsAddr addr with
        | none =>
          rw [handle_skip sk ctx st params addr power signed info hj hinfo hh1 hw hthr
            (by simp [hl])] at he
          exact Or.inr (Or.inl ⟨hthr, by simp, (Except.ok.inj he).symm⟩)
        | some v =>
          cases hvj : v.IsJailed with
          | true =>
            have hall : ∀ v2, sk.ValidatorByConsAddr addr = some v2 → v2.IsJailed = true := by
              intro v2 h2; rw [hl] at h2; cases h2; exact hvj
            rw [handle_skip sk ctx st params addr power signed info hj hinfo hh1 hw hthr
              hall] at he
            refine Or.inr (Or.inl ⟨hthr, ?_, (Except.ok.inj he).symm⟩)
            intro v2 h2; cases h2; exact hvj
          | false =>
            rw [handle_punish sk ctx st params addr power signed info v hj hinfo hh1 hw hthr
              hl hvj] at he
            exact Or.inl ⟨hthr, ⟨v, rfl, hvj⟩, (Except.ok.inj he).symm⟩
      · rw [handle_below sk ctx st params addr power signed info hj hinfo hh1 hw hthr] at he
        exact Or.inr (Or.inr ⟨hthr, (Except.ok.inj he).symm⟩)

/-! ### The store after each path -/

theorem bitUpdate_signingInfos (st : Store) (params : Params) (addr : ConsAddress)
    (info : ValidatorSigningInfo) (h : Int) (signed : Bool) :
    (bitUpdate st params addr info h signed).store.signingInfos = st.signingInfos :=
  updateBitAndCounter_signingInfos _ _ _ _ _ _

theorem bitUpdate_startHeight (st : Store) (params : Params) (addr : ConsAddress)
    (info : ValidatorSigningInfo) (h : Int) (signed : Bool) :
    (bitUpdate st params addr info h signed).signInfo.startHeight = info.startHeight :=
  updateBitAndCounter_startHeight _ _ _ _ _ _

theorem bitUpdate_jailedUntil (st : Store) (params : Params) (addr : ConsAddress)
    (info : ValidatorSigningInfo) (h : Int) (signed : Bool) :
    (bitUpdate st params addr info h signed).signInfo.jailedUntil = info.jailedUntil :=
  updateBitAndCounter_jailedUntil _ _ _ _ _ _

/-- After the switch the bit at the index is the outcome of this block and all
other bits are as before. -/
theorem bitUpdate_missedBlocks (st : Store) (params : Params) (addr : ConsAddress)
    (info : ValidatorSigningInfo) (h : Int) (signed : Bool) (a : ConsAddress) (i : Int) :
    (bitUpdate st params addr info h signed).store.missedBlocks a i
      = if a = addr ∧ i = windowIndex h info.startHeight params.signedBlocksWindow
        then !signed else st.missedBlocks a i := by
  unfold bitUpdate updateBitAndCounter GetMissedBlockBitmapValue
  by_cases hc : a = addr ∧ i = windowIndex h info.startHeight params.signedBlocksWindow
  · obtain ⟨h1, h2⟩ := hc
    subst h1; subst h2
    cases hp : st.missedBlocks a (windowIndex h info.startHeight params.signedBlocksWindow)
      <;> cases signed <;> simp [SetMissedBlockBitmapValue, hp]
  · rw [if_neg hc]
    split_ifs <;> simp only [SetMissedBlockBitmapValue, if_neg hc]

/-- The counter after the switch. -/
theorem bitUpdate_counter (st : Store) (params : Params) (addr : ConsAddress)
    (info : ValidatorSigningInfo) (h : Int) (signed : Bool) :
    (bitUpdate st params addr info h signed).signInfo.missedBlocksCounter
      = if GetMissedBlockBitmapValue st addr
            (windowIndex h info.startHeight params.signedBlocksWindow) = false
          ∧ signed = false then info.missedBlocksCounter + 1
        else if GetMissedBlockBitmapValue st addr
            (windowIndex h info.startHeight params.signedBlocksWindow) = true
          ∧ signed = true then info.missedBlocksCounter - 1
        else info.missedBlocksCounter := by
  unfold bitUpdate updateBitAndCounter
  cases hp : GetMissedBlockBitmapValue st addr
      (windowIndex h info.startHeight params.signedBlocksWindow)
    <;> cases signed <;> simp [hp]

/-- When the switch changes nothing the local record is the stored one. -/
theorem bitUpdate_not_modified (st : Store) (params : Params) (addr : ConsAddress)
    (info : ValidatorSigningInfo) (h : Int) (signed : Bool)
    (hm : (bitUpdate st params addr info h signed).modifiedSignInfo = false) :
    (bitUpdate st params addr info h signed).signInfo = info := by
  unfold bitUpdate updateBitAndCounter at hm ⊢
  split_ifs at hm ⊢
  rfl

theorem belowEffects_missedBlocks (ctx : Context) (st : Store) (params : Params)
    (addr : ConsAddress) (signed : Bool) (info : ValidatorSigningInfo) :
    (belowEffects ctx st params addr signed info).store.missedBlocks
      = (bitUpdate st params addr info ctx.blockHeight signed).store.missedBlocks := by
  unfold belowEffects
  split_ifs <;> rfl

theorem belowEffects_signingInfo (ctx : Context) (st : Store) (params : Params)
    (addr : ConsAddress) (signed : Bool) (info : ValidatorSigningInfo)
    (hinfo : GetValidatorSigningInfo st addr = some info) :
    GetValidatorSigningInfo (belowEffects ctx st params addr signed info).store addr
      = some (bitUpdate st params addr info ctx.blockHeight signed).signInfo := by
  unfold belowEffects
  cases hm : (bitUpdate st params addr info ctx.blockHeight signed).modifiedSignInfo with
  | true => simp [GetValidatorSigningInfo, SetValidatorSigningInfo]
  | false =>
    simp only [Bool.false_eq_true, if_false, GetValidatorSigningInfo, bitUpdate_signingInfos]
    rw [bitUpdate_not_modified st params addr info ctx.blockHeight signed hm]
    exact hinfo

theorem belowEffects_signingInfo_other (ctx : Context) (st : Store) (params : Params)
    (addr : ConsAddress) (signed : Bool) (info : ValidatorSigningInfo) (a : ConsAddress)
    (ha : a ≠ addr) :
    GetValidatorSigningInfo (belowEffects ctx st params addr signed info).store a
      = GetValidatorSigningInfo st a := by
  unfold belowEffects
  split_ifs <;>
    simp [GetValidatorSigningInfo, SetValidatorSigningInfo, bitUpdate_signingInfos, ha]

theorem skipEffects_signingInfo (ctx : Context) (st : Store) (params : Params)
    (addr : ConsAddress) (signed : Bool) (info : ValidatorSigningInfo) :
    GetValidatorSigningInfo (skipEffects ctx st params addr signed info).store addr
      = some (bitUpdate st params addr info ctx.blockHeight signed).signInfo := by
  simp [skipEffects, GetValidatorSigningInfo, SetValidatorSigningInfo]

theorem skipEffects_signingInfo_other (ctx : Context) (st : Store) (params : Params)
    (addr : ConsAddress) (signed : Bool) (info : ValidatorSigningInfo) (a : ConsAddress)
    (ha : a ≠ addr) :
    GetValidatorSigningInfo (skipEffects ctx st params addr signed info).store a
      = GetValidatorSigningInfo st a := by
  simp [skipEffects, GetValidatorSigningInfo, SetValidatorSigningInfo, bitUpdate_signingInfos, ha]

theorem skipEffects_missedBlocks (ctx : Context) (st : Store) (params : Params)
    (addr : ConsAddress) (signed : Bool) (info : ValidatorSigningInfo) :
    (skipEffects ctx st params addr signed info).store.missedBlocks
      = (bitUpdate st params addr info ctx.blockHeight signed).store.missedBlocks := rfl

theorem punishEffects_signingInfo (sk : StakingKeeper) (ctx : Context) (st : Store)
    (params : Params) (addr : ConsAddress) (power : Int) (signed : Bool)
    (info : ValidatorSigningInfo) :
    GetValidatorSigningInfo (punishEffects sk ctx st params addr power signed info).store addr
      = some { (bitUpdate st params addr info ctx.blockHeight signed).signInfo with
                jailedUntil := ctx.blockTime + DowntimeJailDuration st
                missedBlocksCounter := 0 } := by
  simp [punishEffects, GetValidatorSigningInfo, SetValidatorSigningInfo]

theorem punishEffects_signingInfo_other (sk : StakingKeeper) (ctx : Context) (st : Store)
    (params : Params) (addr : ConsAddress) (power : Int) (signed : Bool)
    (info : ValidatorSigningInfo) (a : ConsAddress) (ha : a ≠ addr) :
    GetValidatorSigningInfo (punishEffects sk ctx st params addr power signed info).store a
      = GetValidatorSigningInfo st a := by
  simp [punishEffects, GetValidatorSigningInfo, SetValidatorSigningInfo, DeleteMissedBlockBitmap,
    bitUpdate_signingInfos, ha]

theorem punishEffects_missedBlocks (sk : StakingKeeper) (ctx : Context) (st : Store)
    (params : Params) (addr : ConsAddress) (power : Int) (signed : Bool)
    (info : ValidatorSigningInfo) (a : ConsAddress) (i : Int) :
    (punishEffects sk ctx st params addr power signed info).store.missedBlocks a i
      = if a = addr then false else st.missedBlocks a i := by
  simp only [punishEffects, SetValidatorSigningInfo, DeleteMissedBlockBitmap,
    bitUpdate_missedBlocks]
  split_ifs <;> simp_all

/-! ### The counter invariant -/

/-- On a value of `int64` the wrap-around is the identity. -/
theorem wrapInt64_of_fits (x : Int) (h : fitsInt64 x) : wrapInt64 x = x := by
  unfold fitsInt64 at h
  unfold wrapInt64
  omega

/-! ### Start height and counter range -/

/-- Every path stores, for the validator of the call, a record with the start
height of before, and leaves the records of the other validators alone. -/
theorem handle_storedStartHeight (sk : StakingKeeper) (ctx : Context) (st : Store)
    (params : Params) (addr : ConsAddress) (power : Int) (signed : Bool) (e : Effects)
    (he : HandleValidatorSignatureWithParams sk ctx st params addr power signed = .ok e)
    (a : ConsAddress) :
    storedStartHeight e.store a = storedStartHeight st a := by
  unfold storedStartHeight
  rcases handle_ok_cases sk ctx st params addr power signed e he with
    ⟨_, rfl⟩ | ⟨inf, _, hinf, _, _, hcase⟩
  · rfl
  · by_cases ha : a = addr
    · subst ha
      rw [hinf]
      rcases hcase with ⟨_, _, rfl⟩ | ⟨_, _, rfl⟩ | ⟨_, rfl⟩
      · rw [punishEffects_signingInfo]
        simp [bitUpdate_startHeight]
      · rw [skipEffects_signingInfo]
        simp [bitUpdate_startHeight]
      · rw [belowEffects_signingInfo ctx st params a signed inf hinf]
        simp [bitUpdate_startHeight]
    · rcases hcase with ⟨_, _, rfl⟩ | ⟨_, _, rfl⟩ | ⟨_, rfl⟩
      · rw [punishEffects_signingInfo_other _ _ _ _ _ _ _ _ _ ha]
      · rw [skipEffects_signingInfo_other _ _ _ _ _ _ _ ha]
      · rw [belowEffects_signingInfo_other _ _ _ _ _ _ _ ha]

/-- The store left by a call on a tracked, non-jailed validator that did not
punish: the record and the bits are those of the switch. -/
theorem nonpunished_store (sk : StakingKeeper) (ctx : Context) (st : Store)
    (params : Params) (addr : ConsAddress) (power : Int) (signed : Bool)
    (info : ValidatorSigningInfo) (e : Effects)
    (hj : sk.IsValidatorJailed addr = false)
    (hinfo : GetValidatorSigningInfo st addr = some info)
    (he : HandleValidatorSignatureWithParams sk ctx st params addr power signed = .ok e)
    (hnp : ¬ e.punished) :
    params.signedBlocksWindow ≠ 0
      ∧ info.startHeight ≤ ctx.blockHeight
      ∧ GetValidatorSigningInfo e.store addr
          = some (bitUpdate st params addr info ctx.blockHeight signed).signInfo
      ∧ e.store.missedBlocks
          = (bitUpdate st params addr info ctx.blockHeight signed).store.missedBlocks := by
  rcases handle_ok_cases sk ctx st params addr power signed e he with
    ⟨hjt, _⟩ | ⟨inf, _, hinf, hh, hw, hcase⟩
  · rw [hj] at hjt; cases hjt
  · have hii : inf = info := by rw [hinfo] at hinf; exact (Option.some.inj hinf).symm
    subst hii
    rcases hcase with ⟨_, _, rfl⟩ | ⟨_, _, rfl⟩ | ⟨_, rfl⟩
    · exact absurd (punishEffects_punished _ _ _ _ _ _ _ _) hnp
    · exact ⟨hw, hh, skipEffects_signingInfo ctx st params addr signed inf,
        skipEffects_missedBlocks ctx st params addr signed inf⟩
    · exact ⟨hw, hh, belowEffects_signingInfo ctx st params addr signed inf hinfo,
        belowEffects_missedBlocks ctx st params addr signed inf⟩

/-- When the bit at the index already shows the outcome of the block, the switch
changes nothing. -/
theorem bitUpdate_idem (st : Store) (params : Params) (addr : ConsAddress)
    (info : ValidatorSigningInfo) (h : Int) (signed : Bool)
    (hbit : GetMissedBlockBitmapValue st addr
      (windowIndex h info.startHeight params.signedBlocksWindow) = !signed) :
    bitUpdate st params addr info h signed
      = { store := st, writes := [], signInfo := info, modifiedSignInfo := false } := by
  unfold bitUpdate updateBitAndCounter
  rw [hbit]
  cases signed <;> simp

/-! ### The writes of each path -/

theorem bitUpdate_writes_not_delete (st : Store) (params : Params) (addr : ConsAddress)
    (info : ValidatorSigningInfo) (h : Int) (signed : Bool) (w : StoreWrite)
    (hmem : w ∈ (bitUpdate st params addr info h signed).writes) :
    w.isDeleteBitmap = false := by
  unfold bitUpdate updateBitAndCounter at hmem
  split_ifs at hmem <;> simp at hmem <;> subst hmem <;> rfl

theorem bitUpdate_writes_not_setSigningInfo (st : Store) (params : Params)
    (addr : ConsAddress) (info : ValidatorSigningInfo) (h : Int) (signed : Bool)
    (w : StoreWrite) (hmem : w ∈ (bitUpdate st params addr info h signed).writes) :
    w.isSetSigningInfo = false := by
  unfold bitUpdate updateBitAndCounter at hmem
  split_ifs at hmem <;> simp at hmem <;> subst hmem <;> rfl

/-- The switch sets `modifiedSignInfo` exactly when it changes the counter. -/
theorem bitUpdate_modified_iff (st : Store) (params : Params) (addr : ConsAddress)
    (info : ValidatorSigningInfo) (h : Int) (signed : Bool) :
    (bitUpdate st params addr info h signed).modifiedSignInfo = true
      ↔ updatedCounter st params addr info h signed ≠ info.missedBlocksCounter := by
  unfold updatedCounter bitUpdate updateBitAndCounter
  split_ifs <;> simp

/-- Whether each path issues a `SetValidatorSigningInfo`. -/
theorem punishEffects_writes_set (sk : StakingKeeper) (ctx : Context) (st : Store)
    (params : Params) (addr : ConsAddress) (power : Int) (signed : Bool)
    (info : ValidatorSigningInfo) :
    ∃ w ∈ (punishEffects sk ctx st params addr power signed info).writes,
      w.isSetSigningInfo = true :=
  ⟨.setSigningInfo addr
      { (bitUpdate st params addr info ctx.blockHeight signed).signInfo with
        jailedUntil := ctx.blockTime + DowntimeJailDuration st
        missedBlocksCounter := 0 },
    by simp [punishEffects],
    rfl⟩

theorem skipEffects_writes_set (ctx : Context) (st : Store)
    (params : Params) (addr : ConsAddress) (signed : Bool) (info : ValidatorSigningInfo) :
    ∃ w ∈ (skipEffects ctx st params addr signed info).writes, w.isSetSigningInfo = true :=
  ⟨.setSigningInfo addr (bitUpdate st params addr info ctx.blockHeight signed).signInfo,
    by simp [skipEffects],
    rfl⟩

theorem belowEffects_writes_set_iff (ctx : Context) (st : Store)
    (params : Params) (addr : ConsAddress) (signed : Bool) (info : ValidatorSigningInfo) :
    (∃ w ∈ (belowEffects ctx st params addr signed info).writes, w.isSetSigningInfo = true)
      ↔ (bitUpdate st params addr info ctx.blockHeight signed).modifiedSignInfo = true := by
  unfold belowEffects
  cases hm : (bitUpdate st params addr info ctx.blockHeight signed).modifiedSignInfo with
  | true =>
    simp only [if_true, iff_true]
    exact ⟨.setSigningInfo addr (bitUpdate st params addr info ctx.blockHeight signed).signInfo,
      by simp,
      rfl⟩
  | false =>
    simp only [Bool.false_eq_true, if_false, iff_false]
    rintro ⟨w, hmem, hset⟩
    rw [bitUpdate_writes_not_setSigningInfo st params addr info ctx.blockHeight signed w hmem]
      at hset
    cases hset

/-! ### The events of each path -/

theorem livenessEvents_filter_slash (addr : ConsAddress) (counter height : Int)
    (signed : Bool) :
    (livenessEvents addr counter height signed).filter Event.isSlash = [] := by
  unfold livenessEvents
  cases signed <;> simp [livenessEvent, Event.isSlash]

theorem jailEvent_not_mem_livenessEvents (a addr : ConsAddress) (counter height : Int)
    (signed : Bool) :
    jailEvent a ∉ livenessEvents addr counter height signed := by
  unfold livenessEvents
  cases signed <;> simp [livenessEvent, jailEvent]

theorem jailEvent_ne_downtimeSlashEvent (a addr : ConsAddress) (power burned : Int) :
    jailEvent a ≠ downtimeSlashEvent addr power burned := by
  simp [jailEvent, downtimeSlashEvent]

/-! ### Counters and the number of missed calls -/

/-- The switch raises the counter by at most one, and only on a missed block. -/
theorem updatedCounter_le (st : Store) (params : Params) (addr : ConsAddress)
    (info : ValidatorSigningInfo) (h : Int) (signed : Bool) :
    updatedCounter st params addr info h signed
      ≤ info.missedBlocksCounter + (if signed then 0 else 1) := by
  unfold updatedCounter
  rw [bitUpdate_counter]
  cases GetMissedBlockBitmapValue st addr
      (windowIndex h info.startHeight params.signedBlocksWindow)
    <;> cases signed <;> simp

/-- A call raises the stored counter of a validator by at most one, and only when
it is a call for that validator with `signed = false`. -/
theorem handle_counter_bound (c : Call) (st : Store) (params : Params) (e : Effects)
    (addr : ConsAddress) (m : Int) (hm : 0 ≤ m)
    (he : HandleValidatorSignatureWithParams c.sk c.ctx st params c.addr c.power c.signed
      = .ok e)
    (hinv : ∀ info, GetValidatorSigningInfo st addr = some info →
      info.missedBlocksCounter ≤ m) :
    ∀ info, GetValidatorSigningInfo e.store addr = some info →
      info.missedBlocksCounter
        ≤ m + (if Step.isMissedCallOn addr (.call c) then 1 else 0) := by
  intro info2 hget
  have hnn : (0 : Int) ≤ (if Step.isMissedCallOn addr (.call c) then 1 else 0) := by
    split_ifs <;> omega
  rcases handle_ok_cases c.sk c.ctx st params c.addr c.power c.signed e he with
    ⟨_, rfl⟩ | ⟨inf, _, hinf, _, _, hcase⟩
  · have := hinv info2 hget
    omega
  · by_cases ha : addr = c.addr
    · subst ha
      have hub := updatedCounter_le st params c.addr inf c.ctx.blockHeight c.signed
      have hi := hinv inf hinf
      have hstep : (if c.signed then (0 : Int) else 1)
          = (if Step.isMissedCallOn c.addr (.call c) then 1 else 0) := by
        cases hs : c.signed <;> simp [Step.isMissedCallOn, hs]
      rcases hcase with ⟨_, _, rfl⟩ | ⟨_, _, rfl⟩ | ⟨_, rfl⟩
      · rw [punishEffects_signingInfo] at hget
        cases hget
        show (0 : Int) ≤ _
        omega
      · rw [skipEffects_signingInfo] at hget
        cases hget
        unfold updatedCounter at hub
        omega
      · rw [belowEffects_signingInfo c.ctx st params c.addr c.signed inf hinf] at hget
        cases hget
        unfold updatedCounter at hub
        omega
    · have hget2 : GetValidatorSigningInfo st addr = some info2 := by
        rcases hcase with ⟨_, _, rfl⟩ | ⟨_, _, rfl⟩ | ⟨_, rfl⟩
        · rwa [punishEffects_signingInfo_other _ _ _ _ _ _ _ _ _ ha] at hget
        · rwa [skipEffects_signingInfo_other _ _ _ _ _ _ _ ha] at hget
        · rwa [belowEffects_signingInfo_other _ _ _ _ _ _ _ ha] at hget
      have := hinv info2 hget2
      omega

/-- A punishing call finds the counter, raised by its own miss if any, above
`maxMissed`. -/
theorem handle_punished_bound (c : Call) (st : Store) (params : Params) (e : Effects)
    (m : Int)
    (he : HandleValidatorSignatureWithParams c.sk c.ctx st params c.addr c.power c.signed
      = .ok e)
    (hp : e.punished)
    (hinv : ∀ info, GetValidatorSigningInfo st c.addr = some info →
      info.missedBlocksCounter ≤ m) :
    maxMissed params + 1 ≤ m + (if Step.isMissedCallOn c.addr (.call c) then 1 else 0) := by
  rcases handle_ok_cases c.sk c.ctx st params c.addr c.power c.signed e he with
    ⟨_, rfl⟩ | ⟨inf, _, hinf, _, _, hcase⟩
  · exact absurd hp (noop_not_punished st)
  · have hub := updatedCounter_le st params c.addr inf c.ctx.blockHeight c.signed
    have hi := hinv inf hinf
    have hstep : (if c.signed then (0 : Int) else 1)
        = (if Step.isMissedCallOn c.addr (.call c) then 1 else 0) := by
      cases hs : c.signed <;> simp [Step.isMissedCallOn, hs]
    rcases hcase with ⟨hthr, _, rfl⟩ | ⟨_, _, rfl⟩ | ⟨_, rfl⟩
    · have := hthr.2
      omega
    · exact absurd hp (skipEffects_not_punished _ _ _ _ _ _)
    · exact absurd hp (belowEffects_not_punished _ _ _ _ _ _)

/-- Re-bonding leaves every counter as it is. -/
theorem rebond_counter (st : Store) (a addr : ConsAddress) (height : Int)
    (info : ValidatorSigningInfo)
    (hget : GetValidatorSigningInfo (rebond st a height) addr = some info) :
    ∃ info0, GetValidatorSigningInfo st addr = some info0
      ∧ info0.missedBlocksCounter = info.missedBlocksCounter := by
  unfold rebond at hget
  cases h : GetValidatorSigningInfo st a with
  | none =>
    rw [h] at hget
    exact ⟨info, hget, rfl⟩
  | some i0 =>
    rw [h] at hget
    by_cases ha : addr = a
    · subst ha
      simp [GetValidatorSigningInfo, SetValidatorSigningInfo] at hget
      subst hget
      exact ⟨i0, h, rfl⟩
    · simp [GetValidatorSigningInfo, SetValidatorSigningInfo, ha] at hget
      exact ⟨info, hget, rfl⟩

/-- Along a history the stored counter of a validator grows by at most the number
of calls for that validator with `signed = false`. -/
theorem runSteps_counter_bound (params : Params) (addr : ConsAddress) (steps : List Step)
    (st st1 : Store) (m : Int) (hm : 0 ≤ m)
    (hinv : ∀ info, GetValidatorSigningInfo st addr = some info →
      info.missedBlocksCounter ≤ m)
    (hrun : runSteps params st steps = .ok st1) :
    ∀ info, GetValidatorSigningInfo st1 addr = some info →
      info.missedBlocksCounter ≤ m + (missedCalls addr steps : Int) := by
  induction steps generalizing st m with
  | nil =>
    simp only [runSteps] at hrun
    cases hrun
    intro info h
    have := hinv info h
    simp [missedCalls]
    omega
  | cons s steps ih =>
    cases s with
    | call c =>
      simp only [runSteps] at hrun
      cases hc : HandleValidatorSignatureWithParams c.sk c.ctx st params c.addr c.power
          c.signed with
      | error p => rw [hc] at hrun; cases hrun
      | ok e =>
        rw [hc] at hrun
        have hstep := handle_counter_bound c st params e addr m hm hc hinv
        have hnn : (0 : Int) ≤ (if Step.isMissedCallOn addr (.call c) then 1 else 0) := by
          split_ifs <;> omega
        have := ih e.store (m + (if Step.isMissedCallOn addr (.call c) then 1 else 0))
          (by omega) hstep hrun
        intro info h
        have h2 := this info h
        have hcount : (missedCalls addr (Step.call c :: steps) : Int)
            = (if Step.isMissedCallOn addr (.call c) then 1 else 0)
              + (missedCalls addr steps : Int) := by
          unfold missedCalls
          rw [List.countP_cons]
          split_ifs <;> push_cast <;> omega
        omega
    | rebond a height =>
      simp only [runSteps] at hrun
      have hinv2 : ∀ info, GetValidatorSigningInfo (rebond st a height) addr = some info →
          info.missedBlocksCounter ≤ m := by
        intro info h
        obtain ⟨info0, h0, heq⟩ := rebond_counter st a addr height info h
        have := hinv info0 h0
        omega
      have := ih (rebond st a height) m hm hinv2 hrun
      intro info h
      have h2 := this info h
      have hcount : missedCalls addr (Step.rebond a height :: steps)
          = missedCalls addr steps := by
        unfold missedCalls
        rw [List.countP_cons]
        simp [Step.isMissedCallOn]
      rw [hcount]
      exact h2

/-! ### The pruning loops -/

/-- The inner loop counts what it deletes. -/
theorem pruneEntries_count (limit : Int) (entries : List Int) (c : Int) :
    ((pruneEntries limit entries c).1.length : Int) + ((pruneEntries limit entries c).2 - c)
      = entries.length := by
  induction entries generalizing c with
  | nil => simp [pruneEntries]
  | cons x rest ih =>
    unfold pruneEntries
    split_ifs with h
    · simp only [List.length_cons]
      push_cast
      omega
    · have := ih (c + 1)
      simp only [List.length_cons]
      push_cast
      omega

/-- The inner loop never lowers the counter, and raises it when there is an
entry. -/
theorem pruneEntries_ge (limit : Int) (entries : List Int) (c : Int) :
    c ≤ (pruneEntries limit entries c).2
      ∧ (entries ≠ [] → c + 1 ≤ (pruneEntries limit entries c).2) := by
  induction entries generalizing c with
  | nil => simp [pruneEntries]
  | cons x rest ih =>
    unfold pruneEntries
    split_ifs with h
    · simp
    · have := (ih (c + 1)).1
      constructor
      · omega
      · intro _
        omega

/-- Below a positive limit the inner loop stops at the limit. -/
theorem pruneEntries_le (limit : Int) (entries : List Int) (c : Int) (hc : c < limit) :
    (pruneEntries limit entries c).2 ≤ limit := by
  induction entries generalizing c with
  | nil =>
    simp only [pruneEntries]
    omega
  | cons x rest ih =>
    unfold pruneEntries
    split_ifs with h
    · show c + 1 ≤ limit
      omega
    · exact ih (c + 1) (by omega)

theorem countEntries_cons (a : ConsAddress) (entries : List Int)
    (rest : List (ConsAddress × List Int)) :
    countEntries ((a, entries) :: rest) = entries.length + countEntries rest := by
  simp [countEntries]

/-- The outer loop counts what it deletes. -/
theorem pruneValidators_count (limit : Int) (vs : List (ConsAddress × List Int)) (c : Int) :
    (countEntries (pruneValidators limit vs c).1 : Int) + ((pruneValidators limit vs c).2 - c)
      = countEntries vs := by
  induction vs generalizing c with
  | nil => simp [pruneValidators, countEntries]
  | cons v rest ih =>
    obtain ⟨a, entries⟩ := v
    have hin := pruneEntries_count limit entries c
    simp only [pruneValidators]
    split_ifs with h
    · simp only [countEntries_cons]
      push_cast
      omega
    · have hout := ih (pruneEntries limit entries c).2
      simp only [countEntries_cons]
      push_cast
      omega

/-- The outer loop never lowers the counter. -/
theorem pruneValidators_ge (limit : Int) (vs : List (ConsAddress × List Int)) (c : Int) :
    c ≤ (pruneValidators limit vs c).2 := by
  induction vs generalizing c with
  | nil => simp [pruneValidators]
  | cons v rest ih =>
    obtain ⟨a, entries⟩ := v
    have hin := (pruneEntries_ge limit entries c).1
    simp only [pruneValidators]
    split_ifs with h
    · exact hin
    · have := ih (pruneEntries limit entries c).2
      show c ≤ (pruneValidators limit rest (pruneEntries limit entries c).2).2
      omega

/-- Below a positive limit the outer loop stops at the limit. -/
theorem pruneValidators_le (limit : Int) (vs : List (ConsAddress × List Int)) (c : Int)
    (hc : c < limit) :
    (pruneValidators limit vs c).2 ≤ limit := by
  induction vs generalizing c with
  | nil =>
    simp only [pruneValidators]
    omega
  | cons v rest ih =>
    obtain ⟨a, entries⟩ := v
    have hin := pruneEntries_le limit entries c hc
    simp only [pruneValidators]
    split_ifs with h
    · exact hin
    · exact ih (pruneEntries limit entries c).2 (by omega)

/-- Below the limit, an outer loop that leaves the counter where it was has found
no entry under any validator. -/
theorem pruneValidators_same_counter (limit : Int) (vs : List (ConsAddress × List Int))
    (c : Int) (hc : c < limit) (hsame : (pruneValidators limit vs c).2 = c) :
    countEntries vs = 0 := by
  induction vs generalizing c with
  | nil => rfl
  | cons v rest ih =>
    obtain ⟨a, entries⟩ := v
    have hin := pruneEntries_ge limit entries c
    simp only [pruneValidators] at hsame
    split_ifs at hsame with h
    · have : (pruneEntries limit entries c).2 = c := hsame
      omega
    · have hout := pruneValidators_ge limit rest (pruneEntries limit entries c).2
      have hs : (pruneValidators limit rest (pruneEntries limit entries c).2).2 = c := hsame
      have hc2 : (pruneEntries limit entries c).2 = c := by omega
      have hempty : entries = [] := by
        by_contra hne
        have := hin.2 hne
        omega
      rw [hc2] at hs
      have := ih c hc hs
      subst hempty
      rw [countEntries_cons, this]
      rfl

/-- What a call deletes is what its counter has counted. -/
theorem deletedEntries_eq_counter (st : PruneStore) (limit : Int)
    (hm : st.isPruning = true) :
    deletedEntries st limit = (pruneValidators limit st.validators 0).2 := by
  have h := pruneValidators_count limit st.validators 0
  unfold deletedEntries DeleteDeprecatedValidatorMissedBlockBitArray
  simp only [hm, Bool.not_true, Bool.false_eq_true, if_false]
  omega

/-- Without the pruning key the call changes nothing. -/
theorem prune_noop_without_marker (st : PruneStore) (limit : Int)
    (hm : st.isPruning = false) :
    DeleteDeprecatedValidatorMissedBlockBitArray st limit = st := by
  simp [DeleteDeprecatedValidatorMissedBlockBitArray, hm]

/-- With a limit of at least 1 a call deletes at most `iterationLimit` entries. -/
theorem prune_bounded_for_positive_limit (st : PruneStore) (limit : Int) (hl : 1 ≤ limit) :
    0 ≤ deletedEntries st limit ∧ deletedEntries st limit ≤ limit := by
  cases hm : st.isPruning with
  | false =>
    unfold deletedEntries
    rw [prune_noop_without_marker st limit hm]
    omega
  | true =>
    rw [deletedEntries_eq_counter st limit hm]
    exact ⟨pruneValidators_ge limit st.validators 0,
      pruneValidators_le limit st.validators 0 (by omega)⟩

/-- With a limit of at least 1, a call that removes the pruning key leaves no
deprecated entry under any validator with a signing-info record. -/
theorem prune_marker_removed_complete (st : PruneStore) (limit : Int) (hl : 1 ≤ limit)
    (hm : st.isPruning = true)
    (hrem : (DeleteDeprecatedValidatorMissedBlockBitArray st limit).isPruning = false) :
    countEntries (DeleteDeprecatedValidatorMissedBlockBitArray st limit).validators = 0 := by
  have hcount := pruneValidators_count limit st.validators 0
  unfold DeleteDeprecatedValidatorMissedBlockBitArray at hrem ⊢
  simp only [hm, Bool.not_true, Bool.false_eq_true, if_false] at hrem ⊢
  by_cases h0 : (pruneValidators limit st.validators 0).2 = 0
  · have := pruneValidators_same_counter limit st.validators 0 (by omega) h0
    omega
  · rw [if_neg h0] at hrem
    cases hrem

/-- A call that deleted at least one entry leaves the pruning key in place,
whatever the limit. -/
theorem prune_marker_kept_after_deletion (st : PruneStore) (limit : Int)
    (hm : st.isPruning = true) (hdel : 1 ≤ deletedEntries st limit) :
    (DeleteDeprecatedValidatorMissedBlockBitArray st limit).isPruning = true := by
  rw [deletedEntries_eq_counter st limit hm] at hdel
  unfold DeleteDeprecatedValidatorMissedBlockBitArray
  simp only [hm, Bool.not_true, Bool.false_eq_true, if_false]
  rw [if_neg (by omega)]

/-! ## The claims -/

/-- C2. A call for a validator the staking keeper reports as jailed returns
normally, with the store (counter, bitmap, signing info) untouched, no call to
the staking keeper and no event, whatever the store, the height, the power and
the signed flag are. -/
theorem jailed_validator_is_noop (sk : StakingKeeper) (ctx : Context) (st : Store)
    (params : Params) (addr : ConsAddress) (power : Int) (signed : Bool)
    (hj : sk.IsValidatorJailed addr = true) :
    HandleValidatorSignatureWithParams sk ctx st params addr power signed
      = .ok { store := st, writes := [], calls := [], events := [] } := by
  simp [HandleValidatorSignatureWithParams, hj]

/-- Witness of C2: a jailed validator without signing info, and a jailed
validator whose start height lies above the block height. -/
theorem jailed_validator_is_noop_witness :
    HandleValidatorSignatureWithParams (sampleStaking true none) ⟨5, 1000, 1⟩
        (emptyStore (sampleParams 100 decHalf)) (sampleParams 100 decHalf) 7 10 false
      = .ok { store := emptyStore (sampleParams 100 decHalf), writes := [], calls := [],
              events := [] }
    ∧ HandleValidatorSignatureWithParams (sampleStaking true none) ⟨5, 1000, 1⟩
        (sampleStore (sampleParams 100 decHalf) 9 0 0) (sampleParams 100 decHalf) 7 10 true
      = .ok { store := sampleStore (sampleParams 100 decHalf) 9 0 0, writes := [], calls := [],
              events := [] } :=
  ⟨jailed_validator_is_noop _ _ _ _ _ _ _ rfl, jailed_validator_is_noop _ _ _ _ _ _ _ rfl⟩

/-- C3, the claim as stated fails: window `MaxInt64`, minimum signed fraction 1
(so `maxMissed = 0`), start height 1; the `int64` sum `1 + MaxInt64` of line 109
wraps to `MinInt64`, so the miss of height 3 is slashed and jailed although 3 is
not above `startHeight + signedBlocksWindow`. -/
theorem punishment_below_unwrapped_sum :
    ∃ e,
      HandleValidatorSignatureWithParams (sampleStaking false (some ⟨false⟩)) ⟨3, 1000, 1⟩
          (sampleStore (sampleParams maxInt64 decOne) 1 0 0) (sampleParams maxInt64 decOne)
          7 10 false = .ok e
        ∧ e.punished
        ∧ fitsInt64 (sampleParams maxInt64 decOne).signedBlocksWindow
        ∧ ¬ ((3 : Int) > 1 + (sampleParams maxInt64 decOne).signedBlocksWindow) :=
  ⟨punishEffects (sampleStaking false (some ⟨false⟩)) ⟨3, 1000, 1⟩
      (sampleStore (sampleParams maxInt64 decOne) 1 0 0) (sampleParams maxInt64 decOne)
      7 10 false ⟨7, 1, 0, 0⟩,
    handle_punish (sampleStaking false (some ⟨false⟩)) ⟨3, 1000, 1⟩
      (sampleStore (sampleParams maxInt64 decOne) 1 0 0) (sampleParams maxInt64 decOne)
      7 10 false ⟨7, 1, 0, 0⟩ ⟨false⟩ rfl rfl (by decide) (by decide) (by decide) rfl rfl,
    punishEffects_punished _ _ _ _ _ _ _ _, by decide, by decide⟩

/-- C3, amended. On a validator that is not jailed, has signing info and whose
start height is not above the block height, with a positive window, the call
returns, and it executes slash and jail exactly when the height is above
`minHeight`, the `int64` sum `startHeight + signedBlocksWindow` of line 109 (which
wraps around), the counter after the bit update is above
`signedBlocksWindow - MinSignedPerWindowInt` and the lookup returns a validator
that is not jailed; otherwise it makes no call to the staking keeper at all.
Whenever `startHeight + signedBlocksWindow` is a value of `int64`, the first
condition is that the height is above `startHeight + signedBlocksWindow`. -/
theorem punishment_condition (sk : StakingKeeper) (ctx : Context) (st : Store)
    (params : Params) (addr : ConsAddress) (power : Int) (signed : Bool)
    (info : ValidatorSigningInfo)
    (hj : sk.IsValidatorJailed addr = false)
    (hinfo : GetValidatorSigningInfo st addr = some info)
    (hh : info.startHeight ≤ ctx.blockHeight)
    (hw : 0 < params.signedBlocksWindow) :
    ∃ e, HandleValidatorSignatureWithParams sk ctx st params addr power signed = .ok e
      ∧ (e.punished ↔
          (ctx.blockHeight > wrapInt64 (info.startHeight + params.signedBlocksWindow)
            ∧ updatedCounter st params addr info ctx.blockHeight signed
                > params.signedBlocksWindow - params.MinSignedPerWindowInt
            ∧ ∃ v, sk.ValidatorByConsAddr addr = some v ∧ v.IsJailed = false))
      ∧ (fitsInt64 (info.startHeight + params.signedBlocksWindow) →
          (e.punished ↔
            (ctx.blockHeight > info.startHeight + params.signedBlocksWindow
              ∧ updatedCounter st params addr info ctx.blockHeight signed
                  > params.signedBlocksWindow - params.MinSignedPerWindowInt
              ∧ ∃ v, sk.ValidatorByConsAddr addr = some v ∧ v.IsJailed = false)))
      ∧ (¬ e.punished → e.calls = []) := by
  have hw0 : params.signedBlocksWindow ≠ 0 := by omega
  have hmain : ∃ e,
      HandleValidatorSignatureWithParams sk ctx st params addr power signed = .ok e
        ∧ (e.punished ↔
            (ctx.blockHeight > wrapInt64 (info.startHeight + params.signedBlocksWindow)
              ∧ updatedCounter st params addr info ctx.blockHeight signed
                  > params.signedBlocksWindow - params.MinSignedPerWindowInt
              ∧ ∃ v, sk.ValidatorByConsAddr addr = some v ∧ v.IsJailed = false))
        ∧ (¬ e.punished → e.calls = []) := by
    by_cases hthr : thresholdReached st params addr info ctx.blockHeight signed
    · cases hl : sk.ValidatorByConsAddr addr with
      | none =>
        refine ⟨_, handle_skip sk ctx st params addr power signed info hj hinfo hh hw0 hthr
          (by simp [hl]), ?_, fun _ => rfl⟩
        simp [skipEffects_not_punished]
      | some v =>
        cases hvj : v.IsJailed with
        | true =>
          refine ⟨_, handle_skip sk ctx st params addr power signed info hj hinfo hh hw0 hthr
            (by intro v2 h2; rw [hl] at h2; cases h2; exact hvj), ?_, fun _ => rfl⟩
          simp [skipEffects_not_punished, hvj]
        | false =>
          refine ⟨_, handle_punish sk ctx st params addr power signed info v hj hinfo hh hw0
            hthr hl hvj, ?_, ?_⟩
          · have h1 := hthr.1
            have h2 := hthr.2
            unfold maxMissed at h2
            simp [punishEffects_punished, hvj, h1, h2]
          · intro hn
            exact absurd (punishEffects_punished sk ctx st params addr power signed info) hn
    · refine ⟨_, handle_below sk ctx st params addr power signed info hj hinfo hh hw0 hthr,
        ?_, fun _ => rfl⟩
      have hn : ¬ (ctx.blockHeight > wrapInt64 (info.startHeight + params.signedBlocksWindow)
          ∧ updatedCounter st params addr info ctx.blockHeight signed
              > params.signedBlocksWindow - params.MinSignedPerWindowInt) := hthr
      simp only [belowEffects_not_punished, false_iff]
      rintro ⟨h1, h2, _⟩
      exact hn ⟨h1, h2⟩
  obtain ⟨e, he, hiff, hcalls⟩ := hmain
  refine ⟨e, he, hiff, ?_, hcalls⟩
  intro hfit
  rw [wrapInt64_of_fits _ hfit] at hiff
  exact hiff

/-- Witness of C3 (amended): window 100 and minimum signed fraction one half give
the threshold 50; above height `startHeight + 100` an updated counter of 51 is
punished and an updated counter of 50 is not. -/
theorem punishment_condition_witness :
    (∃ e, HandleValidatorSignatureWithParams (sampleStaking false (some ⟨false⟩))
          ⟨150, 1000, 1⟩ (sampleStore (sampleParams 100 decHalf) 0 50 50)
          (sampleParams 100 decHalf) 7 10 false = .ok e
        ∧ updatedCounter (sampleStore (sampleParams 100 decHalf) 0 50 50)
            (sampleParams 100 decHalf) 7 ⟨7, 0, 0, 50⟩ 150 false = 51
        ∧ e.punished)
    ∧ (∃ e, HandleValidatorSignatureWithParams (sampleStaking false (some ⟨false⟩))
          ⟨150, 1000, 1⟩ (sampleStore (sampleParams 100 decHalf) 0 50 50)
          (sampleParams 100 decHalf) 7 10 true = .ok e
        ∧ updatedCounter (sampleStore (sampleParams 100 decHalf) 0 50 50)
            (sampleParams 100 decHalf) 7 ⟨7, 0, 0, 50⟩ 150 true = 50
        ∧ ¬ e.punished) := by
  constructor
  · obtain ⟨e, he, _, hiff, _⟩ :=
      punishment_condition (sampleStaking false (some ⟨false⟩)) ⟨150, 1000, 1⟩
        (sampleStore (sampleParams 100 decHalf) 0 50 50) (sampleParams 100 decHalf) 7 10 false
        ⟨7, 0, 0, 50⟩ rfl rfl (by decide) (by decide)
    exact ⟨e, he, by decide, (hiff (by decide)).2 ⟨by decide, by decide, ⟨false⟩, rfl, rfl⟩⟩
  · obtain ⟨e, he, _, hiff, _⟩ :=
      punishment_condition (sampleStaking false (some ⟨false⟩)) ⟨150, 1000, 1⟩
        (sampleStore (sampleParams 100 decHalf) 0 50 50) (sampleParams 100 decHalf) 7 10 true
        ⟨7, 0, 0, 50⟩ rfl rfl (by decide) (by decide)
    refine ⟨e, he, by decide, fun hp => ?_⟩
    have h := ((hiff (by decide)).1 hp).2.1
    revert h
    decide

/-- C4, the claim as stated fails: window 4, threshold 1, start height `2^63 - 3`,
bits 0 to 2 set and counter 3. The `int64` sum `startHeight + 4` of line 109 wraps
to `-2^63 + 1`, so the miss of height `2^63 - 2`, which is not above
`startHeight + signedBlocksWindow`, is slashed and jailed. -/
theorem punishment_inside_unwrapped_grace_period :
    (9223372036854775806 : Int)
        ≤ 9223372036854775805 + (sampleParams 4 decThreeQuarters).signedBlocksWindow
      ∧ fitsInt64 9223372036854775806
      ∧ fitsInt64 9223372036854775805
      ∧ ∃ e,
          HandleValidatorSignatureWithParams (sampleStaking false (some ⟨false⟩))
              ⟨9223372036854775806, 1000, 1⟩
              (sampleStore (sampleParams 4 decThreeQuarters) 9223372036854775805 3 3)
              (sampleParams 4 decThreeQuarters) 7 10 false = .ok e
            ∧ e.calls
                = [.SlashWithInfractionReason 7 9223372036854775804 10 10000000000000000
                    .downtime, .Jail 7] :=
  ⟨by decide, by decide, by decide,
    punishEffects (sampleStaking false (some ⟨false⟩)) ⟨9223372036854775806, 1000, 1⟩
      (sampleStore (sampleParams 4 decThreeQuarters) 9223372036854775805 3 3)
      (sampleParams 4 decThreeQuarters) 7 10 false ⟨7, 9223372036854775805, 0, 3⟩,
    handle_punish (sampleStaking false (some ⟨false⟩)) ⟨9223372036854775806, 1000, 1⟩
      (sampleStore (sampleParams 4 decThreeQuarters) 9223372036854775805 3 3)
      (sampleParams 4 decThreeQuarters) 7 10 false ⟨7, 9223372036854775805, 0, 3⟩ ⟨false⟩
      rfl rfl (by decide) (by decide) (by decide) rfl rfl,
    by decide⟩

/-- C4, amended. A call made at a height not above `minHeight`, the `int64` sum
`startHeight + signedBlocksWindow` of line 109 (which wraps around), and in
particular a call made at a height not above `startHeight + signedBlocksWindow`
(the boundary height included) whenever that sum is a value of `int64`, asks the
staking keeper for nothing, leaves `jailedUntil` as it was and does not clear the
bitmap: every bit other than the one at the index of this height keeps its value,
whatever the counter is. -/
theorem grace_period_no_punishment (sk : StakingKeeper) (ctx : Context) (st : Store)
    (params : Params) (addr : ConsAddress) (power : Int) (signed : Bool)
    (info : ValidatorSigningInfo) (e : Effects)
    (hinfo : GetValidatorSigningInfo st addr = some info)
    (hg : ctx.blockHeight ≤ wrapInt64 (info.startHeight + params.signedBlocksWindow)
      ∨ (fitsInt64 (info.startHeight + params.signedBlocksWindow)
          ∧ ctx.blockHeight ≤ info.startHeight + params.signedBlocksWindow))
    (he : HandleValidatorSignatureWithParams sk ctx st params addr power signed = .ok e) :
    e.calls = []
      ∧ (∃ info2, GetValidatorSigningInfo e.store addr = some info2
            ∧ info2.jailedUntil = info.jailedUntil)
      ∧ ∀ a i, (a ≠ addr
            ∨ i ≠ windowIndex ctx.blockHeight info.startHeight params.signedBlocksWindow) →
          GetMissedBlockBitmapValue e.store a i = GetMissedBlockBitmapValue st a i := by
  have hgw : ctx.blockHeight ≤ wrapInt64 (info.startHeight + params.signedBlocksWindow) := by
    rcases hg with h | ⟨hfit, h⟩
    · exact h
    · rw [wrapInt64_of_fits _ hfit]
      exact h
  rcases handle_ok_cases sk ctx st params addr power signed e he with
    ⟨_, rfl⟩ | ⟨inf, _, hinf, _, _, hcase⟩
  · exact ⟨rfl, ⟨info, hinfo, rfl⟩, fun _ _ _ => rfl⟩
  · have hii : inf = info := by rw [hinfo] at hinf; exact (Option.some.inj hinf).symm
    subst hii
    have hthr : ¬ thresholdReached st params addr inf ctx.blockHeight signed := by
      intro hthr
      have := hthr.1
      omega
    rcases hcase with ⟨h, _⟩ | ⟨h, _⟩ | ⟨_, rfl⟩
    · exact absurd h hthr
    · exact absurd h hthr
    · refine ⟨rfl, ⟨_, belowEffects_signingInfo ctx st params addr signed inf hinfo,
        bitUpdate_jailedUntil _ _ _ _ _ _⟩, ?_⟩
      intro a i hai
      have hne : ¬ (a = addr
          ∧ i = windowIndex ctx.blockHeight inf.startHeight params.signedBlocksWindow) := by
        rintro ⟨h1, h2⟩
        rcases hai with h | h
        · exact h h1
        · exact h h2
      simp only [GetMissedBlockBitmapValue, belowEffects_missedBlocks, bitUpdate_missedBlocks,
        if_neg hne]

/-- Witness of C4 (amended): at height exactly `startHeight + 100` a counter of 60
exceeds the threshold 50, yet a missed block leads to no call, and bit 59 is still
set. -/
theorem grace_period_no_punishment_witness :
    60 > maxMissed (sampleParams 100 decHalf)
      ∧ (belowEffects ⟨100, 1000, 1⟩ (sampleStore (sampleParams 100 decHalf) 0 60 60)
            (sampleParams 100 decHalf) 7 false ⟨7, 0, 0, 60⟩).calls = []
      ∧ GetMissedBlockBitmapValue
          (belowEffects ⟨100, 1000, 1⟩ (sampleStore (sampleParams 100 decHalf) 0 60 60)
            (sampleParams 100 decHalf) 7 false ⟨7, 0, 0, 60⟩).store 7 59 = true := by
  have h := grace_period_no_punishment (sampleStaking false (some ⟨false⟩)) ⟨100, 1000, 1⟩
    (sampleStore (sampleParams 100 decHalf) 0 60 60) (sampleParams 100 decHalf) 7 10 false
    ⟨7, 0, 0, 60⟩ _ rfl (Or.inr ⟨by decide, by decide⟩)
    (handle_below (sampleStaking false (some ⟨false⟩)) ⟨100, 1000, 1⟩
      (sampleStore (sampleParams 100 decHalf) 0 60 60) (sampleParams 100 decHalf) 7 10 false
      ⟨7, 0, 0, 60⟩ rfl rfl (by decide) (by decide) (by decide))
  refine ⟨by decide, h.1, ?_⟩
  rw [h.2.2 7 59 (Or.inr (by decide))]
  decide

/-- C5. After a call that executed the punishment the stored signing info of the
validator has counter 0 and `jailedUntil` equal to the block time plus the
downtime jail duration, and every index of its bitmap reads 0. -/
theorem reset_after_punishment (sk : StakingKeeper) (ctx : Context) (st : Store)
    (params : Params) (addr : ConsAddress) (power : Int) (signed : Bool) (e : Effects)
    (he : HandleValidatorSignatureWithParams sk ctx st params addr power signed = .ok e)
    (hp : e.punished) :
    (∃ info2, GetValidatorSigningInfo e.store addr = some info2
        ∧ info2.missedBlocksCounter = 0
        ∧ info2.jailedUntil = ctx.blockTime + DowntimeJailDuration st)
      ∧ ∀ i, GetMissedBlockBitmapValue e.store addr i = false := by
  rcases handle_ok_cases sk ctx st params addr power signed e he with
    ⟨_, rfl⟩ | ⟨inf, _, _, _, _, hcase⟩
  · exact absurd hp (noop_not_punished st)
  · rcases hcase with ⟨_, _, rfl⟩ | ⟨_, _, rfl⟩ | ⟨_, rfl⟩
    · refine ⟨⟨_, punishEffects_signingInfo sk ctx st params addr power signed inf, rfl, rfl⟩,
        ?_⟩
      intro i
      simp [GetMissedBlockBitmapValue, punishEffects_missedBlocks]
    · exact absurd hp (skipEffects_not_punished ctx st params addr signed inf)
    · exact absurd hp (belowEffects_not_punished ctx st params addr signed inf)

/-- Witness of C5: the punishing call of the threshold example (window 100, 50
bits set, a miss at height 150) stores counter 0 and `jailedUntil = 1000 + 600`,
and the bit it set itself (index 50) reads 0 afterwards. -/
theorem reset_after_punishment_witness :
    (∃ info2, GetValidatorSigningInfo
          (punishEffects (sampleStaking false (some ⟨false⟩)) ⟨150, 1000, 1⟩
            (sampleStore (sampleParams 100 decHalf) 0 50 50) (sampleParams 100 decHalf) 7 10
            false ⟨7, 0, 0, 50⟩).store 7 = some info2
        ∧ info2.missedBlocksCounter = 0 ∧ info2.jailedUntil = 1600)
      ∧ GetMissedBlockBitmapValue
          (punishEffects (sampleStaking false (some ⟨false⟩)) ⟨150, 1000, 1⟩
            (sampleStore (sampleParams 100 decHalf) 0 50 50) (sampleParams 100 decHalf) 7 10
            false ⟨7, 0, 0, 50⟩).store 7 50 = false := by
  have h := reset_after_punishment (sampleStaking false (some ⟨false⟩)) ⟨150, 1000, 1⟩
    (sampleStore (sampleParams 100 decHalf) 0 50 50) (sampleParams 100 decHalf) 7 10 false _
    (handle_punish (sampleStaking false (some ⟨false⟩)) ⟨150, 1000, 1⟩
      (sampleStore (sampleParams 100 decHalf) 0 50 50) (sampleParams 100 decHalf) 7 10 false
      ⟨7, 0, 0, 50⟩ ⟨false⟩ rfl rfl (by decide) (by decide) (by decide) rfl rfl)
    (punishEffects_punished _ _ _ _ _ _ _ _)
  exact ⟨h.1, h.2 50⟩

/-- C6. The threshold `maxMissed` of the handler is the window minus the floor
of the product of the minimum signed fraction and the window, for every window
and every fraction (in particular for a positive window and a fraction in
`[0, 1]`). -/
theorem maxMissed_is_floor_based (p : Params) :
    maxMissed p
      = p.signedBlocksWindow
          - ⌊Dec.toRat p.minSignedPerWindow * (p.signedBlocksWindow : ℚ)⌋ := by
  have hfl : ⌊Dec.toRat p.minSignedPerWindow * (p.signedBlocksWindow : ℚ)⌋
      = (p.minSignedPerWindow * p.signedBlocksWindow) / decPrecision := by
    have hq : Dec.toRat p.minSignedPerWindow * (p.signedBlocksWindow : ℚ)
        = ((p.minSignedPerWindow * p.signedBlocksWindow : ℤ) : ℚ)
            / ((1000000000000000000 : ℕ) : ℚ) := by
      unfold Dec.toRat decPrecision
      push_cast
      ring
    rw [hq, Rat.floor_intCast_div_natCast]
    rfl
  unfold maxMissed Params.MinSignedPerWindowInt
  rw [hfl]

/-- Witness of C6: window 100 and fraction one half give `maxMissed = 50`. -/
theorem maxMissed_is_floor_based_witness :
    maxMissed (sampleParams 100 decHalf) = 50
      ∧ maxMissed (sampleParams 100 decHalf)
          = 100 - ⌊Dec.toRat decHalf * ((100 : ℤ) : ℚ)⌋ :=
  ⟨by decide, maxMissed_is_floor_based (sampleParams 100 decHalf)⟩

/-- C10. A call that executed the punishment made exactly two calls to the staking
keeper: first one slash of the validator's address with distribution height
`height - ValidatorUpdateDelay - 1` (negative when the height is below
`ValidatorUpdateDelay + 1`), the power of the call, the downtime slash fraction
and the downtime infraction, then one jail of the same address. -/
theorem slash_then_jail (sk : StakingKeeper) (ctx : Context) (st : Store)
    (params : Params) (addr : ConsAddress) (power : Int) (signed : Bool) (e : Effects)
    (he : HandleValidatorSignatureWithParams sk ctx st params addr power signed = .ok e)
    (hp : e.punished) :
    ∃ distributionHeight,
      distributionHeight = ctx.blockHeight - ctx.validatorUpdateDelay - 1
        ∧ (ctx.blockHeight < ctx.validatorUpdateDelay + 1 → distributionHeight < 0)
        ∧ e.calls =
            [.SlashWithInfractionReason addr distributionHeight power
                (SlashFractionDowntime st) .downtime,
             .Jail addr]
        ∧ e.slashCalls = 1 ∧ e.jailCalls = 1 := by
  rcases handle_ok_cases sk ctx st params addr power signed e he with
    ⟨_, rfl⟩ | ⟨inf, _, _, _, _, hcase⟩
  · exact absurd hp (noop_not_punished st)
  · rcases hcase with ⟨_, _, rfl⟩ | ⟨_, _, rfl⟩ | ⟨_, rfl⟩
    · refine ⟨_, rfl, fun h => by omega, rfl, ?_, ?_⟩
      · simp [Effects.slashCalls, punishEffects, StakingCall.isSlash]
      · simp [Effects.jailCalls, punishEffects, StakingCall.isJail]
    · exact absurd hp (skipEffects_not_punished ctx st params addr signed inf)
    · exact absurd hp (belowEffects_not_punished ctx st params addr signed inf)

/-- Witness of C10: the punishing call of the threshold example at height 150
slashes at distribution height 148, and a punishing call at height 0 (start
height -3, window 2) slashes at distribution height -2. -/
theorem slash_then_jail_witness :
    (punishEffects (sampleStaking false (some ⟨false⟩)) ⟨150, 1000, 1⟩
        (sampleStore (sampleParams 100 decHalf) 0 50 50) (sampleParams 100 decHalf) 7 10
        false ⟨7, 0, 0, 50⟩).calls
      = [.SlashWithInfractionReason 7 148 10 10000000000000000 .downtime, .Jail 7]
    ∧ (punishEffects (sampleStaking false (some ⟨false⟩)) ⟨0, 1000, 1⟩
        (sampleStore (sampleParams 2 decHalf) (-3) 2 2) (sampleParams 2 decHalf) 7 10
        false ⟨7, -3, 0, 2⟩).calls
      = [.SlashWithInfractionReason 7 (-2) 10 10000000000000000 .downtime, .Jail 7] := by
  obtain ⟨d1, hd1, _, hc1, _⟩ :=
    slash_then_jail (sampleStaking false (some ⟨false⟩)) ⟨150, 1000, 1⟩
      (sampleStore (sampleParams 100 decHalf) 0 50 50) (sampleParams 100 decHalf) 7 10 false _
      (handle_punish (sampleStaking false (some ⟨false⟩)) ⟨150, 1000, 1⟩
        (sampleStore (sampleParams 100 decHalf) 0 50 50) (sampleParams 100 decHalf) 7 10 false
        ⟨7, 0, 0, 50⟩ ⟨false⟩ rfl rfl (by decide) (by decide) (by decide) rfl rfl)
      (punishEffects_punished _ _ _ _ _ _ _ _)
  obtain ⟨d2, hd2, _, hc2, _⟩ :=
    slash_then_jail (sampleStaking false (some ⟨false⟩)) ⟨0, 1000, 1⟩
      (sampleStore (sampleParams 2 decHalf) (-3) 2 2) (sampleParams 2 decHalf) 7 10 false _
      (handle_punish (sampleStaking false (some ⟨false⟩)) ⟨0, 1000, 1⟩
        (sampleStore (sampleParams 2 decHalf) (-3) 2 2) (sampleParams 2 decHalf) 7 10 false
        ⟨7, -3, 0, 2⟩ ⟨false⟩ rfl rfl (by decide) (by decide) (by decide) rfl rfl)
      (punishEffects_punished _ _ _ _ _ _ _ _)
  subst hd1; subst hd2
  exact ⟨hc1, hc2⟩

/-- C11. When the threshold condition holds but the lookup returns no validator
or a jailed one, the call returns, makes no call to the staking keeper, issues no
`DeleteMissedBlockBitmap`, stores a record with the old `jailedUntil` and
`startHeight` and with the counter the switch produced, and leaves every bit as
the switch produced it. -/
theorem recoverable_skip (sk : StakingKeeper) (ctx : Context) (st : Store)
    (params : Params) (addr : ConsAddress) (power : Int) (signed : Bool)
    (info : ValidatorSigningInfo)
    (hj : sk.IsValidatorJailed addr = false)
    (hinfo : GetValidatorSigningInfo st addr = some info)
    (hh : info.startHeight ≤ ctx.blockHeight)
    (hw : params.signedBlocksWindow ≠ 0)
    (hheight : ctx.blockHeight > info.startHeight + params.signedBlocksWindow)
    (hcounter : updatedCounter st params addr info ctx.blockHeight signed > maxMissed params)
    (hv : sk.ValidatorByConsAddr addr = none
      ∨ ∃ v, sk.ValidatorByConsAddr addr = some v ∧ v.IsJailed = true) :
    ∃ e info2,
      HandleValidatorSignatureWithParams sk ctx st params addr power signed = .ok e
        ∧ e.calls = []
        ∧ (∀ w ∈ e.writes, w.isDeleteBitmap = false)
        ∧ GetValidatorSigningInfo e.store addr = some info2
        ∧ info2.jailedUntil = info.jailedUntil
        ∧ info2.startHeight = info.startHeight
        ∧ info2.missedBlocksCounter = updatedCounter st params addr info ctx.blockHeight signed
        ∧ ∀ a i, GetMissedBlockBitmapValue e.store a i
            = GetMissedBlockBitmapValue
                (bitUpdate st params addr info ctx.blockHeight signed).store a i := by
  have hall : ∀ v, sk.ValidatorByConsAddr addr = some v → v.IsJailed = true := by
    intro v hl
    rcases hv with h | ⟨v2, h2, hj2⟩
    · rw [h] at hl; cases hl
    · rw [h2] at hl; cases hl; exact hj2
  -- the skipped-punishment path: the test of line 113 holds on the int64 sum
  have hskip : thresholdReached st params addr info ctx.blockHeight signed →
      ∃ e info2,
        HandleValidatorSignatureWithParams sk ctx st params addr power signed = .ok e
          ∧ e.calls = []
          ∧ (∀ w ∈ e.writes, w.isDeleteBitmap = false)
          ∧ GetValidatorSigningInfo e.store addr = some info2
          ∧ info2.jailedUntil = info.jailedUntil
          ∧ info2.startHeight = info.startHeight
          ∧ info2.missedBlocksCounter
              = updatedCounter st params addr info ctx.blockHeight signed
          ∧ ∀ a i, GetMissedBlockBitmapValue e.store a i
              = GetMissedBlockBitmapValue
                  (bitUpdate st params addr info ctx.blockHeight signed).store a i := by
    intro hthr
    refine ⟨_, _, handle_skip sk ctx st params addr power signed info hj hinfo hh hw
      hthr hall, rfl, ?_, skipEffects_signingInfo ctx st params addr signed info,
      bitUpdate_jailedUntil _ _ _ _ _ _, bitUpdate_startHeight _ _ _ _ _ _, rfl,
      fun _ _ => rfl⟩
    intro w hmem
    simp only [skipEffects, List.mem_append, List.mem_singleton] at hmem
    rcases hmem with h | h
    · exact bitUpdate_writes_not_delete st params addr info ctx.blockHeight signed w h
    · subst h; rfl
  by_cases hfit : fitsInt64 (info.startHeight + params.signedBlocksWindow)
  · -- the sum of line 109 did not wrap: the hypotheses are the test of line 113
    exact hskip ⟨by rw [wrapInt64_of_fits _ hfit]; exact hheight, hcounter⟩
  · -- the sum of line 109 wrapped: either the test holds on the wrapped sum, or the
    -- record is stored, or left, with the same content
    by_cases hthr : thresholdReached st params addr info ctx.blockHeight signed
    · exact hskip hthr
    · refine ⟨_, _, handle_below sk ctx st params addr power signed info hj hinfo hh hw
        hthr, rfl, ?_, belowEffects_signingInfo ctx st params addr signed info hinfo,
        bitUpdate_jailedUntil _ _ _ _ _ _, bitUpdate_startHeight _ _ _ _ _ _, rfl, ?_⟩
      · intro w hmem
        unfold belowEffects at hmem
        split_ifs at hmem
        · simp only [List.mem_append, List.mem_singleton] at hmem
          rcases hmem with h | h
          · exact bitUpdate_writes_not_delete st params addr info ctx.blockHeight signed w h
          · subst h; rfl
        · exact bitUpdate_writes_not_delete st params addr info ctx.blockHeight signed w hmem
      · intro a i
        unfold GetMissedBlockBitmapValue
        rw [belowEffects_missedBlocks]

/-- Witness of C11: window 100, threshold 50, 60 bits set and counter 60, a miss
at height 201 (index 1, already set) with the validator not found: no call to the
staking keeper, counter 60 stored, bit 59 still set. -/
theorem recoverable_skip_witness :
    ∃ e info2,
      HandleValidatorSignatureWithParams (sampleStaking false none) ⟨201, 1000, 1⟩
          (sampleStore (sampleParams 100 decHalf) 0 60 60) (sampleParams 100 decHalf) 7 10 false
          = .ok e
        ∧ e.calls = []
        ∧ GetValidatorSigningInfo e.store 7 = some info2
        ∧ info2.missedBlocksCounter = 60
        ∧ GetMissedBlockBitmapValue e.store 7 59 = true := by
  obtain ⟨e, info2, he, hc, _, hi, _, _, hcnt, hbits⟩ :=
    recoverable_skip (sampleStaking false none) ⟨201, 1000, 1⟩
      (sampleStore (sampleParams 100 decHalf) 0 60 60) (sampleParams 100 decHalf) 7 10 false
      ⟨7, 0, 0, 60⟩ rfl rfl (by decide) (by decide) (by decide) (by decide) (Or.inl rfl)
  refine ⟨e, info2, he, hc, hi, hcnt.trans (by decide), ?_⟩
  rw [hbits]
  decide

/-- C12. With a positive window, a call on a validator that is not jailed panics
when the validator has no signing info, and panics when its start height is above
the block height; in both cases nothing has been done when the panic is raised:
the store is the one of before the call, with no write, no call to the staking
keeper and no event. -/
theorem fatal_invariant_violations (sk : StakingKeeper) (ctx : Context) (st : Store)
    (params : Params) (addr : ConsAddress) (power : Int) (signed : Bool)
    (hj : sk.IsValidatorJailed addr = false)
    (hw : 0 < params.signedBlocksWindow) :
    (GetValidatorSigningInfo st addr = none →
        HandleValidatorSignatureWithParams sk ctx st params addr power signed
          = .error ⟨.signingInfoNotFound,
              { store := st, writes := [], calls := [], events := [] }⟩)
      ∧ (∀ info, GetValidatorSigningInfo st addr = some info →
          info.startHeight > ctx.blockHeight →
          HandleValidatorSignatureWithParams sk ctx st params addr power signed
            = .error ⟨.invalidStartHeight,
                { store := st, writes := [], calls := [], events := [] }⟩) := by
  have hw0 : params.signedBlocksWindow ≠ 0 := by omega
  constructor
  · intro hnone
    simp [HandleValidatorSignatureWithParams, hj, hnone]
  · intro info hinfo hgt
    simp [HandleValidatorSignatureWithParams, hj, hinfo, hw0, hgt]

/-- Witness of C12: a validator without signing info, and a validator whose start
height 9 is above the block height 5. -/
theorem fatal_invariant_violations_witness :
    HandleValidatorSignatureWithParams (sampleStaking false (some ⟨false⟩)) ⟨5, 1000, 1⟩
        (emptyStore (sampleParams 100 decHalf)) (sampleParams 100 decHalf) 7 10 false
      = .error ⟨.signingInfoNotFound,
          { store := emptyStore (sampleParams 100 decHalf), writes := [], calls := [],
            events := [] }⟩
    ∧ HandleValidatorSignatureWithParams (sampleStaking false (some ⟨false⟩)) ⟨5, 1000, 1⟩
        (sampleStore (sampleParams 100 decHalf) 9 0 0) (sampleParams 100 decHalf) 7 10 false
      = .error ⟨.invalidStartHeight,
          { store := sampleStore (sampleParams 100 decHalf) 9 0 0, writes := [], calls := [],
            events := [] }⟩ :=
  ⟨(fatal_invariant_violations (sampleStaking false (some ⟨false⟩)) ⟨5, 1000, 1⟩
      (emptyStore (sampleParams 100 decHalf)) (sampleParams 100 decHalf) 7 10 false rfl
      (by decide)).1 rfl,
   (fatal_invariant_violations (sampleStaking false (some ⟨false⟩)) ⟨5, 1000, 1⟩
      (sampleStore (sampleParams 100 decHalf) 9 0 0) (sampleParams 100 decHalf) 7 10 false rfl
      (by decide)).2 ⟨7, 9, 0, 0⟩ rfl (by decide)⟩

/-- C13. Whatever path a call takes (no-op, bit update, punishment, skipped
punishment), the start height stored for every validator after the call is the
one stored before; in particular the punishment path keeps it. -/
theorem startHeight_never_modified (sk : StakingKeeper) (ctx : Context) (st : Store)
    (params : Params) (addr : ConsAddress) (power : Int) (signed : Bool) (e : Effects)
    (he : HandleValidatorSignatureWithParams sk ctx st params addr power signed = .ok e) :
    ∀ a, storedStartHeight e.store a = storedStartHeight st a :=
  fun a => handle_storedStartHeight sk ctx st params addr power signed e he a

/-- Witness of C13: the punishing call of the threshold example resets the
counter from 50 to 0 and keeps the start height 0. -/
theorem startHeight_never_modified_witness :
    storedStartHeight
        (punishEffects (sampleStaking false (some ⟨false⟩)) ⟨150, 1000, 1⟩
          (sampleStore (sampleParams 100 decHalf) 0 50 50) (sampleParams 100 decHalf) 7 10
          false ⟨7, 0, 0, 50⟩).store 7 = some 0
      ∧ storedCounter
        (punishEffects (sampleStaking false (some ⟨false⟩)) ⟨150, 1000, 1⟩
          (sampleStore (sampleParams 100 decHalf) 0 50 50) (sampleParams 100 decHalf) 7 10
          false ⟨7, 0, 0, 50⟩).store 7 = some 0 :=
  ⟨startHeight_never_modified (sampleStaking false (some ⟨false⟩)) ⟨150, 1000, 1⟩
      (sampleStore (sampleParams 100 decHalf) 0 50 50) (sampleParams 100 decHalf) 7 10 false _
      (handle_punish (sampleStaking false (some ⟨false⟩)) ⟨150, 1000, 1⟩
        (sampleStore (sampleParams 100 decHalf) 0 50 50) (sampleParams 100 decHalf) 7 10 false
        ⟨7, 0, 0, 50⟩ ⟨false⟩ rfl rfl (by decide) (by decide) (by decide) rfl rfl) 7,
    by decide⟩

/-- C14. End-to-end scenario: window 4, minimum signed fraction 0.75 (so
`MinSignedPerWindowInt = 3` and `maxMissed = 1`), start height 0, empty bitmap,
counter 0, validator found and not jailed. The misses of heights 0, 1 and 4 leave
the counter at 1, 2 and 2 (height 4 hits index 0, whose bit is already set) and
make no call to the staking keeper; the miss of height 5 slashes and jails and
leaves counter 0 and every bit cleared. -/
theorem end_to_end_scenario :
    (sampleParams 4 decThreeQuarters).MinSignedPerWindowInt = 3
      ∧ maxMissed (sampleParams 4 decThreeQuarters) = 1
      ∧ ∃ e1 e2 e3 e4,
          HandleValidatorSignatureWithParams (sampleStaking false (some ⟨false⟩)) ⟨0, 1000, 1⟩
              (sampleStore (sampleParams 4 decThreeQuarters) 0 0 0)
              (sampleParams 4 decThreeQuarters) 7 10 false = .ok e1
            ∧ storedCounter e1.store 7 = some 1 ∧ e1.calls = []
            ∧ HandleValidatorSignatureWithParams (sampleStaking false (some ⟨false⟩))
                ⟨1, 1000, 1⟩ e1.store (sampleParams 4 decThreeQuarters) 7 10 false = .ok e2
            ∧ storedCounter e2.store 7 = some 2 ∧ e2.calls = []
            ∧ HandleValidatorSignatureWithParams (sampleStaking false (some ⟨false⟩))
                ⟨4, 1000, 1⟩ e2.store (sampleParams 4 decThreeQuarters) 7 10 false = .ok e3
            ∧ windowIndex 4 0 4 = 0 ∧ GetMissedBlockBitmapValue e2.store 7 0 = true
            ∧ storedCounter e3.store 7 = some 2 ∧ e3.calls = []
            ∧ HandleValidatorSignatureWithParams (sampleStaking false (some ⟨false⟩))
                ⟨5, 1000, 1⟩ e3.store (sampleParams 4 decThreeQuarters) 7 10 false = .ok e4
            ∧ e4.calls
                = [.SlashWithInfractionReason 7 3 10 10000000000000000 .downtime, .Jail 7]
            ∧ storedCounter e4.store 7 = some 0
            ∧ ∀ i, GetMissedBlockBitmapValue e4.store 7 i = false := by
  refine ⟨by decide, by decide,
    belowEffects ⟨0, 1000, 1⟩ _ (sampleParams 4 decThreeQuarters) 7 false ⟨7, 0, 0, 0⟩,
    belowEffects ⟨1, 1000, 1⟩ _ (sampleParams 4 decThreeQuarters) 7 false ⟨7, 0, 0, 1⟩,
    belowEffects ⟨4, 1000, 1⟩ _ (sampleParams 4 decThreeQuarters) 7 false ⟨7, 0, 0, 2⟩,
    punishEffects (sampleStaking false (some ⟨false⟩)) ⟨5, 1000, 1⟩ _
      (sampleParams 4 decThreeQuarters) 7 10 false ⟨7, 0, 0, 2⟩,
    handle_below _ _ _ _ _ _ _ _ rfl rfl (by decide) (by decide) (by decide),
    by decide, rfl,
    handle_below _ _ _ _ _ _ _ _ rfl (by decide) (by decide) (by decide) (by decide),
    by decide, rfl,
    handle_below _ _ _ _ _ _ _ _ rfl (by decide) (by decide) (by decide) (by decide),
    by decide, by decide, by decide, rfl,
    handle_punish _ _ _ _ _ _ _ _ ⟨false⟩ rfl (by decide) (by decide) (by decide) (by decide)
      rfl rfl,
    by decide, by decide, ?_⟩
  intro i
  simp [GetMissedBlockBitmapValue, punishEffects_missedBlocks]

/-- C15. Two consecutive calls on the same non-jailed validator whose heights
map to the same index and which carry the same `signed` value, the first of which
did not punish: the second call returns, and unless it punishes it leaves every
signing-info record (hence the counter) and every bitmap bit as the first call
left them. -/
theorem idempotent_bit_transitions (sk1 sk2 : StakingKeeper) (ctx1 ctx2 : Context)
    (st : Store) (params : Params) (addr : ConsAddress) (power1 power2 : Int)
    (signed : Bool) (info : ValidatorSigningInfo) (e1 : Effects)
    (hj1 : sk1.IsValidatorJailed addr = false)
    (hinfo : GetValidatorSigningInfo st addr = some info)
    (he1 : HandleValidatorSignatureWithParams sk1 ctx1 st params addr power1 signed = .ok e1)
    (hnp1 : ¬ e1.punished)
    (hj2 : sk2.IsValidatorJailed addr = false)
    (hh2 : info.startHeight ≤ ctx2.blockHeight)
    (hidx : windowIndex ctx2.blockHeight info.startHeight params.signedBlocksWindow
      = windowIndex ctx1.blockHeight info.startHeight params.signedBlocksWindow) :
    ∃ e2,
      HandleValidatorSignatureWithParams sk2 ctx2 e1.store params addr power2 signed = .ok e2
        ∧ (¬ e2.punished →
            (∀ a, GetValidatorSigningInfo e2.store a = GetValidatorSigningInfo e1.store a)
              ∧ ∀ a i, GetMissedBlockBitmapValue e2.store a i
                  = GetMissedBlockBitmapValue e1.store a i) := by
  obtain ⟨hw, _, hinfo1, hbits1⟩ :=
    nonpunished_store sk1 ctx1 st params addr power1 signed info e1 hj1 hinfo he1 hnp1
  have hsh : (bitUpdate st params addr info ctx1.blockHeight signed).signInfo.startHeight
      = info.startHeight := bitUpdate_startHeight _ _ _ _ _ _
  have hh2b : (bitUpdate st params addr info ctx1.blockHeight signed).signInfo.startHeight
      ≤ ctx2.blockHeight := by rw [hsh]; exact hh2
  have hbit : GetMissedBlockBitmapValue e1.store addr
      (windowIndex ctx2.blockHeight
        (bitUpdate st params addr info ctx1.blockHeight signed).signInfo.startHeight
        params.signedBlocksWindow) = !signed := by
    rw [hsh, hidx]
    unfold GetMissedBlockBitmapValue
    rw [hbits1, bitUpdate_missedBlocks, if_pos ⟨rfl, rfl⟩]
  have hidem := bitUpdate_idem e1.store params addr
    (bitUpdate st params addr info ctx1.blockHeight signed).signInfo ctx2.blockHeight signed hbit
  have hkeep : ∀ e2 : Effects,
      (e2 = skipEffects ctx2 e1.store params addr signed
              (bitUpdate st params addr info ctx1.blockHeight signed).signInfo
        ∨ e2 = belowEffects ctx2 e1.store params addr signed
              (bitUpdate st params addr info ctx1.blockHeight signed).signInfo) →
      (∀ a, GetValidatorSigningInfo e2.store a = GetValidatorSigningInfo e1.store a)
        ∧ ∀ a i, GetMissedBlockBitmapValue e2.store a i
            = GetMissedBlockBitmapValue e1.store a i := by
    intro e2 h2
    constructor
    · intro a
      by_cases ha : a = addr
      · subst ha
        rcases h2 with rfl | rfl
        · rw [skipEffects_signingInfo, hidem, hinfo1]
        · rw [belowEffects_signingInfo _ _ _ _ _ _ hinfo1, hidem, hinfo1]
      · rcases h2 with rfl | rfl
        · rw [skipEffects_signingInfo_other _ _ _ _ _ _ _ ha]
        · rw [belowEffects_signingInfo_other _ _ _ _ _ _ _ ha]
    · intro a i
      unfold GetMissedBlockBitmapValue
      rcases h2 with rfl | rfl
      · rw [skipEffects_missedBlocks, hidem]
      · rw [belowEffects_missedBlocks, hidem]
  by_cases hthr : thresholdReached e1.store params addr
      (bitUpdate st params addr info ctx1.blockHeight signed).signInfo ctx2.blockHeight signed
  · by_cases hv : ∃ v, sk2.ValidatorByConsAddr addr = some v ∧ v.IsJailed = false
    · obtain ⟨v, hl, hvj⟩ := hv
      exact ⟨_, handle_punish sk2 ctx2 e1.store params addr power2 signed _ v hj2 hinfo1 hh2b
        hw hthr hl hvj, fun hn => absurd (punishEffects_punished _ _ _ _ _ _ _ _) hn⟩
    · have hall : ∀ v, sk2.ValidatorByConsAddr addr = some v → v.IsJailed = true := by
        intro v hl
        cases hvj : v.IsJailed with
        | true => rfl
        | false => exact absurd ⟨v, hl, hvj⟩ hv
      exact ⟨_, handle_skip sk2 ctx2 e1.store params addr power2 signed _ hj2 hinfo1 hh2b hw
        hthr hall, fun _ => hkeep _ (Or.inl rfl)⟩
  · exact ⟨_, handle_below sk2 ctx2 e1.store params addr power2 signed _ hj2 hinfo1 hh2b hw
      hthr, fun _ => hkeep _ (Or.inr rfl)⟩

/-- Witness of C15: window 4, start height 10; the miss of height 10 sets bit 0
and makes the counter 1, the miss of height 14 hits bit 0 again and the counter
stays 1. -/
theorem idempotent_bit_transitions_witness :
    storedCounter
        (belowEffects ⟨10, 1000, 1⟩ (sampleStore (sampleParams 4 decThreeQuarters) 10 0 0)
          (sampleParams 4 decThreeQuarters) 7 false ⟨7, 10, 0, 0⟩).store 7 = some 1
      ∧ ∃ e2,
          HandleValidatorSignatureWithParams (sampleStaking false (some ⟨false⟩)) ⟨14, 1000, 1⟩
              (belowEffects ⟨10, 1000, 1⟩ (sampleStore (sampleParams 4 decThreeQuarters) 10 0 0)
                (sampleParams 4 decThreeQuarters) 7 false ⟨7, 10, 0, 0⟩).store
              (sampleParams 4 decThreeQuarters) 7 10 false = .ok e2
            ∧ storedCounter e2.store 7 = some 1 := by
  refine ⟨by decide, ?_⟩
  obtain ⟨e2, he2, h⟩ :=
    idempotent_bit_transitions (sampleStaking false (some ⟨false⟩))
      (sampleStaking false (some ⟨false⟩)) ⟨10, 1000, 1⟩ ⟨14, 1000, 1⟩
      (sampleStore (sampleParams 4 decThreeQuarters) 10 0 0) (sampleParams 4 decThreeQuarters)
      7 10 10 false ⟨7, 10, 0, 0⟩ _ rfl rfl
      (handle_below (sampleStaking false (some ⟨false⟩)) ⟨10, 1000, 1⟩
        (sampleStore (sampleParams 4 decThreeQuarters) 10 0 0) (sampleParams 4 decThreeQuarters)
        7 10 false ⟨7, 10, 0, 0⟩ rfl rfl (by decide) (by decide) (by decide))
      (belowEffects_not_punished _ _ _ _ _ _) rfl (by decide) (by decide)
  have hb := handle_below (sampleStaking false (some ⟨false⟩)) ⟨14, 1000, 1⟩
    (belowEffects ⟨10, 1000, 1⟩ (sampleStore (sampleParams 4 decThreeQuarters) 10 0 0)
      (sampleParams 4 decThreeQuarters) 7 false ⟨7, 10, 0, 0⟩).store
    (sampleParams 4 decThreeQuarters) 7 10 false ⟨7, 10, 0, 1⟩ rfl (by decide) (by decide)
    (by decide) (by decide)
  have hnp : ¬ e2.punished := by
    rw [hb] at he2
    cases he2
    exact belowEffects_not_punished _ _ _ _ _ _
  refine ⟨e2, he2, ?_⟩
  unfold storedCounter
  rw [(h hnp).1 7]
  decide

/-- C17, the claim as stated fails: window 100, threshold 50, counter 60 with
bits 0 to 59 set; a miss at height 201 hits index 1, whose bit is already set, so
the counter stays 60, but the threshold condition holds and the validator is not
found: `SetValidatorSigningInfo` is called although the counter did not change. -/
theorem persist_without_counter_change :
    ∃ e,
      HandleValidatorSignatureWithParams (sampleStaking false none) ⟨201, 1000, 1⟩
          (sampleStore (sampleParams 100 decHalf) 0 60 60) (sampleParams 100 decHalf) 7 10 false
          = .ok e
        ∧ storedCounter (sampleStore (sampleParams 100 decHalf) 0 60 60) 7 = some 60
        ∧ updatedCounter (sampleStore (sampleParams 100 decHalf) 0 60 60)
            (sampleParams 100 decHalf) 7 ⟨7, 0, 0, 60⟩ 201 false = 60
        ∧ storedCounter e.store 7 = some 60
        ∧ e.writes = [.setSigningInfo 7 ⟨7, 0, 0, 60⟩] :=
  ⟨skipEffects ⟨201, 1000, 1⟩ (sampleStore (sampleParams 100 decHalf) 0 60 60)
      (sampleParams 100 decHalf) 7 false ⟨7, 0, 0, 60⟩,
    handle_skip (sampleStaking false none) ⟨201, 1000, 1⟩
      (sampleStore (sampleParams 100 decHalf) 0 60 60) (sampleParams 100 decHalf) 7 10 false
      ⟨7, 0, 0, 60⟩ rfl rfl (by decide) (by decide) (by decide) (by intro v h; cases h),
    by decide, by decide, by decide, by decide⟩

/-- C17, amended. A call that returns has issued a `SetValidatorSigningInfo`
exactly when the validator is not jailed and either the switch changed the
counter or the threshold condition of line 113 held: height above `minHeight`,
the `int64` sum `startHeight + signedBlocksWindow` of line 109 (which wraps
around), and updated counter above `maxMissed`. Whenever that sum is a value of
`int64`, the first part is that the height is above
`startHeight + signedBlocksWindow`. -/
theorem persist_only_when_modified (sk : StakingKeeper) (ctx : Context) (st : Store)
    (params : Params) (addr : ConsAddress) (power : Int) (signed : Bool) (e : Effects)
    (he : HandleValidatorSignatureWithParams sk ctx st params addr power signed = .ok e) :
    ((∃ w ∈ e.writes, w.isSetSigningInfo = true)
        ↔ ∃ info, sk.IsValidatorJailed addr = false
            ∧ GetValidatorSigningInfo st addr = some info
            ∧ (updatedCounter st params addr info ctx.blockHeight signed
                  ≠ info.missedBlocksCounter
                ∨ (ctx.blockHeight
                      > wrapInt64 (info.startHeight + params.signedBlocksWindow)
                    ∧ updatedCounter st params addr info ctx.blockHeight signed
                        > maxMissed params)))
      ∧ ((∀ info, GetValidatorSigningInfo st addr = some info →
            fitsInt64 (info.startHeight + params.signedBlocksWindow)) →
          ((∃ w ∈ e.writes, w.isSetSigningInfo = true)
            ↔ ∃ info, sk.IsValidatorJailed addr = false
                ∧ GetValidatorSigningInfo st addr = some info
                ∧ (updatedCounter st params addr info ctx.blockHeight signed
                      ≠ info.missedBlocksCounter
                    ∨ (ctx.blockHeight > info.startHeight + params.signedBlocksWindow
                        ∧ updatedCounter st params addr info ctx.blockHeight signed
                            > maxMissed params)))) := by
  have hmain : (∃ w ∈ e.writes, w.isSetSigningInfo = true)
      ↔ ∃ info, sk.IsValidatorJailed addr = false
          ∧ GetValidatorSigningInfo st addr = some info
          ∧ (updatedCounter st params addr info ctx.blockHeight signed
                ≠ info.missedBlocksCounter
              ∨ (ctx.blockHeight
                    > wrapInt64 (info.startHeight + params.signedBlocksWindow)
                  ∧ updatedCounter st params addr info ctx.blockHeight signed
                      > maxMissed params)) := by
    rcases handle_ok_cases sk ctx st params addr power signed e he with
      ⟨hjt, rfl⟩ | ⟨inf, hj, hinf, _, _, hcase⟩
    · constructor
      · rintro ⟨w, hmem, _⟩
        cases hmem
      · rintro ⟨_, hjf, _⟩
        rw [hjt] at hjf
        cases hjf
    · have hinfo_eq : ∀ info, GetValidatorSigningInfo st addr = some info → info = inf := by
        intro info h
        rw [hinf] at h
        exact (Option.some.inj h).symm
      rcases hcase with ⟨hthr, _, rfl⟩ | ⟨hthr, _, rfl⟩ | ⟨hthr, rfl⟩
      · exact ⟨fun _ => ⟨inf, hj, hinf, Or.inr hthr⟩,
          fun _ => punishEffects_writes_set sk ctx st params addr power signed inf⟩
      · exact ⟨fun _ => ⟨inf, hj, hinf, Or.inr hthr⟩,
          fun _ => skipEffects_writes_set ctx st params addr signed inf⟩
      · rw [belowEffects_writes_set_iff, bitUpdate_modified_iff]
        constructor
        · intro hne
          exact ⟨inf, hj, hinf, Or.inl hne⟩
        · rintro ⟨info, _, hinfo, h⟩
          have := hinfo_eq info hinfo
          subst this
          rcases h with h | h
          · exact h
          · exact absurd h hthr
  refine ⟨hmain, fun hfit => ?_⟩
  rw [hmain]
  constructor
  · rintro ⟨info, hj, hinfo, h⟩
    refine ⟨info, hj, hinfo, ?_⟩
    rw [wrapInt64_of_fits _ (hfit info hinfo)] at h
    exact h
  · rintro ⟨info, hj, hinfo, h⟩
    refine ⟨info, hj, hinfo, ?_⟩
    rw [wrapInt64_of_fits _ (hfit info hinfo)]
    exact h

/-- Witness of C17 (amended): in the grace period a repeated miss on a set bit
issues no `SetValidatorSigningInfo`. -/
theorem persist_only_when_modified_witness :
    ¬ ∃ w ∈ (belowEffects ⟨100, 1000, 1⟩ (sampleStore (sampleParams 100 decHalf) 0 60 60)
          (sampleParams 100 decHalf) 7 false ⟨7, 0, 0, 60⟩).writes,
        w.isSetSigningInfo = true := by
  rw [(persist_only_when_modified (sampleStaking false (some ⟨false⟩)) ⟨100, 1000, 1⟩
    (sampleStore (sampleParams 100 decHalf) 0 60 60) (sampleParams 100 decHalf) 7 10 false _
    (handle_below (sampleStaking false (some ⟨false⟩)) ⟨100, 1000, 1⟩
      (sampleStore (sampleParams 100 decHalf) 0 60 60) (sampleParams 100 decHalf) 7 10 false
      ⟨7, 0, 0, 60⟩ rfl rfl (by decide) (by decide) (by decide))).1]
  rintro ⟨info, _, hinfo, h⟩
  have hi : info = ⟨7, 0, 0, 60⟩ := (Option.some.inj hinfo).symm
  subst hi
  revert h
  decide

/-- C19, the claim as stated fails: the punishing call of the threshold example
emits exactly two events, the liveness event and one slash event; there is no
additional jail event. -/
theorem no_separate_jail_event :
    ∃ e,
      HandleValidatorSignatureWithParams (sampleStaking false (some ⟨false⟩)) ⟨150, 1000, 1⟩
          (sampleStore (sampleParams 100 decHalf) 0 50 50) (sampleParams 100 decHalf) 7 10 false
          = .ok e
        ∧ e.punished
        ∧ e.events = [livenessEvent 7 51 150, downtimeSlashEvent 7 10 10]
        ∧ jailEvent 7 ∉ e.events :=
  ⟨punishEffects (sampleStaking false (some ⟨false⟩)) ⟨150, 1000, 1⟩
      (sampleStore (sampleParams 100 decHalf) 0 50 50) (sampleParams 100 decHalf) 7 10 false
      ⟨7, 0, 0, 50⟩,
    handle_punish (sampleStaking false (some ⟨false⟩)) ⟨150, 1000, 1⟩
      (sampleStore (sampleParams 100 decHalf) 0 50 50) (sampleParams 100 decHalf) 7 10 false
      ⟨7, 0, 0, 50⟩ ⟨false⟩ rfl rfl (by decide) (by decide) (by decide) rfl rfl,
    punishEffects_punished _ _ _ _ _ _ _ _, by decide, by decide⟩

/-- C19, amended. A call that executes the punishment emits exactly one event of
type `slash`, carrying the address, the power, the missing-signature reason, the
jailed address (attribute `jailed`) and the burned amount returned by the staking
keeper's slash; a call that does not execute the punishment emits no event of
type `slash`; no call emits a separate jail event. -/
theorem punishment_events (sk : StakingKeeper) (ctx : Context) (st : Store)
    (params : Params) (addr : ConsAddress) (power : Int) (signed : Bool) (e : Effects)
    (he : HandleValidatorSignatureWithParams sk ctx st params addr power signed = .ok e) :
    e.events.filter Event.isSlash
        = (if e.punished then
            [{ type := .slash
               attributes :=
                 [(.address, .addr addr), (.power, .num power), (.reason, .missingSignature),
                  (.jailed, .addr addr),
                  (.burnedCoins,
                    .num (sk.coinsBurned addr (ctx.blockHeight - ctx.validatorUpdateDelay - 1)
                      power (SlashFractionDowntime st) .downtime))] }]
          else [])
      ∧ ∀ a, jailEvent a ∉ e.events := by
  rcases handle_ok_cases sk ctx st params addr power signed e he with
    ⟨_, rfl⟩ | ⟨inf, _, _, _, _, hcase⟩
  · rw [if_neg (noop_not_punished st)]
    exact ⟨rfl, fun a h => by cases h⟩
  · rcases hcase with ⟨_, _, rfl⟩ | ⟨_, _, rfl⟩ | ⟨_, rfl⟩
    · rw [if_pos (punishEffects_punished _ _ _ _ _ _ _ _)]
      constructor
      · simp only [punishEffects, List.filter_append, livenessEvents_filter_slash]
        simp [downtimeSlashEvent, Event.isSlash]
      · intro a hmem
        simp only [punishEffects, List.mem_append, List.mem_singleton] at hmem
        rcases hmem with h | h
        · exact jailEvent_not_mem_livenessEvents _ _ _ _ _ h
        · exact jailEvent_ne_downtimeSlashEvent _ _ _ _ h
    · rw [if_neg (skipEffects_not_punished _ _ _ _ _ _)]
      exact ⟨livenessEvents_filter_slash _ _ _ _,
        fun a h => jailEvent_not_mem_livenessEvents _ _ _ _ _ h⟩
    · rw [if_neg (belowEffects_not_punished _ _ _ _ _ _)]
      exact ⟨livenessEvents_filter_slash _ _ _ _,
        fun a h => jailEvent_not_mem_livenessEvents _ _ _ _ _ h⟩

/-- Witness of C19 (amended): the slash events of the punishing call of the
threshold example. -/
theorem punishment_events_witness :
    (punishEffects (sampleStaking false (some ⟨false⟩)) ⟨150, 1000, 1⟩
        (sampleStore (sampleParams 100 decHalf) 0 50 50) (sampleParams 100 decHalf) 7 10 false
        ⟨7, 0, 0, 50⟩).events.filter Event.isSlash
      = [{ type := .slash
           attributes :=
             [(.address, .addr 7), (.power, .num 10), (.reason, .missingSignature),
              (.jailed, .addr 7), (.burnedCoins, .num 10)] }] := by
  have h := (punishment_events (sampleStaking false (some ⟨false⟩)) ⟨150, 1000, 1⟩
    (sampleStore (sampleParams 100 decHalf) 0 50 50) (sampleParams 100 decHalf) 7 10 false _
    (handle_punish (sampleStaking false (some ⟨false⟩)) ⟨150, 1000, 1⟩
      (sampleStore (sampleParams 100 decHalf) 0 50 50) (sampleParams 100 decHalf) 7 10 false
      ⟨7, 0, 0, 50⟩ ⟨false⟩ rfl rfl (by decide) (by decide) (by decide) rfl rfl)).1
  rw [if_pos (punishEffects_punished _ _ _ _ _ _ _ _)] at h
  exact h

/-- C20. After a punishing call, whatever calls (for any validator, with any
answers of the staking keeper) and re-bondings follow, a later call for the same
validator that executes the punishment has been preceded, itself included, by at
least `maxMissed + 1` calls for that validator with `signed = false`. In
particular, when `MinSignedPerWindowInt` is at most the window, a call made
directly after the reset does not punish unless it is itself a miss, so a call
with `signed = true` made directly after the reset never punishes. -/
theorem no_repunishment_before_enough_misses (params : Params)
    (sk0 : StakingKeeper) (ctx0 : Context) (st : Store) (addr : ConsAddress) (power0 : Int)
    (signed0 : Bool) (e0 : Effects)
    (he0 : HandleValidatorSignatureWithParams sk0 ctx0 st params addr power0 signed0 = .ok e0)
    (hp0 : e0.punished)
    (steps : List Step) (st1 : Store)
    (hrun : runSteps params e0.store steps = .ok st1)
    (c : Call) (hca : c.addr = addr) (e : Effects)
    (he : HandleValidatorSignatureWithParams c.sk c.ctx st1 params c.addr c.power c.signed
      = .ok e)
    (hp : e.punished) :
    maxMissed params + 1 ≤ (missedCalls addr (steps ++ [.call c]) : Int)
      ∧ (params.MinSignedPerWindowInt ≤ params.signedBlocksWindow →
          steps = [] → c.signed = false) := by
  subst hca
  have hreset : ∀ info, GetValidatorSigningInfo e0.store c.addr = some info →
      info.missedBlocksCounter ≤ 0 := by
    intro info hget
    rcases handle_ok_cases sk0 ctx0 st params c.addr power0 signed0 e0 he0 with
      ⟨_, rfl⟩ | ⟨inf, _, _, _, _, hcase⟩
    · exact absurd hp0 (noop_not_punished st)
    · rcases hcase with ⟨_, _, rfl⟩ | ⟨_, _, rfl⟩ | ⟨_, rfl⟩
      · rw [punishEffects_signingInfo] at hget
        cases hget
        exact le_refl _
      · exact absurd hp0 (skipEffects_not_punished _ _ _ _ _ _)
      · exact absurd hp0 (belowEffects_not_punished _ _ _ _ _ _)
  have hbound := runSteps_counter_bound params c.addr steps e0.store st1 0 (le_refl _) hreset hrun
  have hfin := handle_punished_bound c st1 params e (0 + (missedCalls c.addr steps : Int)) he hp
    hbound
  have hcount : (missedCalls c.addr (steps ++ [.call c]) : Int)
      = (missedCalls c.addr steps : Int)
        + (if Step.isMissedCallOn c.addr (.call c) then 1 else 0) := by
    unfold missedCalls
    rw [List.countP_append, List.countP_cons, List.countP_nil]
    split_ifs <;> push_cast <;> omega
  constructor
  · omega
  · intro hmin hsteps
    subst hsteps
    have h0 : missedCalls c.addr [] = 0 := rfl
    rw [h0] at hfin
    unfold maxMissed at hfin
    cases hs : c.signed with
    | false => rfl
    | true =>
      have hz : (if Step.isMissedCallOn c.addr (.call c) then (1 : Int) else 0) = 0 := by
        simp [Step.isMissedCallOn, hs]
      rw [hz] at hfin
      push_cast at hfin
      omega

/-- Witness of C20: window 4 and minimum signed fraction 1, so `maxMissed = 0`.
After the punishing miss of height 5 the validator re-bonds at height 6 and signs
height 7; the miss of height 11 is punished, and it is the first miss since the
reset. -/
theorem no_repunishment_before_enough_misses_witness :
    maxMissed (sampleParams 4 decOne) = 0
      ∧ maxMissed (sampleParams 4 decOne) + 1
          ≤ (missedCalls 7
              ([Step.rebond 7 6, Step.call (sampleCall 7 true)]
                ++ [Step.call (sampleCall 11 false)]) : Int) := by
  have he0 := handle_punish (sampleStaking false (some ⟨false⟩)) ⟨5, 1000, 1⟩
    (sampleStore (sampleParams 4 decOne) 0 0 0) (sampleParams 4 decOne) 7 10 false
    ⟨7, 0, 0, 0⟩ ⟨false⟩ rfl rfl (by decide) (by decide) (by decide) rfl rfl
  have hb := handle_below (sampleStaking false (some ⟨false⟩)) ⟨7, 1000, 1⟩
    (rebond (punishEffects (sampleStaking false (some ⟨false⟩)) ⟨5, 1000, 1⟩
      (sampleStore (sampleParams 4 decOne) 0 0 0) (sampleParams 4 decOne) 7 10 false
      ⟨7, 0, 0, 0⟩).store 7 6)
    (sampleParams 4 decOne) 7 10 true ⟨7, 6, 1600, 0⟩ rfl (by decide) (by decide) (by decide)
    (by decide)
  have hrun : runSteps (sampleParams 4 decOne)
      (punishEffects (sampleStaking false (some ⟨false⟩)) ⟨5, 1000, 1⟩
        (sampleStore (sampleParams 4 decOne) 0 0 0) (sampleParams 4 decOne) 7 10 false
        ⟨7, 0, 0, 0⟩).store
      [Step.rebond 7 6, Step.call (sampleCall 7 true)]
      = .ok (belowEffects ⟨7, 1000, 1⟩
          (rebond (punishEffects (sampleStaking false (some ⟨false⟩)) ⟨5, 1000, 1⟩
            (sampleStore (sampleParams 4 decOne) 0 0 0) (sampleParams 4 decOne) 7 10 false
            ⟨7, 0, 0, 0⟩).store 7 6)
          (sampleParams 4 decOne) 7 true ⟨7, 6, 1600, 0⟩).store := by
    simp only [runSteps, sampleCall]
    rw [hb]
  have he := handle_punish (sampleStaking false (some ⟨false⟩)) ⟨11, 1000, 1⟩
    (belowEffects ⟨7, 1000, 1⟩
      (rebond (punishEffects (sampleStaking false (some ⟨false⟩)) ⟨5, 1000, 1⟩
        (sampleStore (sampleParams 4 decOne) 0 0 0) (sampleParams 4 decOne) 7 10 false
        ⟨7, 0, 0, 0⟩).store 7 6)
      (sampleParams 4 decOne) 7 true ⟨7, 6, 1600, 0⟩).store
    (sampleParams 4 decOne) 7 10 false ⟨7, 6, 1600, 0⟩ ⟨false⟩ rfl (by decide) (by decide)
    (by decide) (by decide) rfl rfl
  exact ⟨by decide,
    (no_repunishment_before_enough_misses (sampleParams 4 decOne)
      (sampleStaking false (some ⟨false⟩)) ⟨5, 1000, 1⟩
      (sampleStore (sampleParams 4 decOne) 0 0 0) 7 10 false _ he0
      (punishEffects_punished _ _ _ _ _ _ _ _)
      [Step.rebond 7 6, Step.call (sampleCall 7 true)] _ hrun
      (sampleCall 11 false) rfl _ he (punishEffects_punished _ _ _ _ _ _ _ _)).1⟩

/-- C21. Signing the current block does not by itself prevent punishment: with
window 4 and `maxMissed = 1`, the misses of heights 0, 1 and 2 (all inside the
grace period) bring the counter to 3, which is above `maxMissed + 1`; the call of
height 5 with `signed = true` clears bit 1, finds the counter at 2, still above
`maxMissed`, and slashes and jails the validator. -/
theorem punishment_on_signed_block :
    ∃ st e,
      runCalls (sampleParams 4 decThreeQuarters)
          (sampleStore (sampleParams 4 decThreeQuarters) 0 0 0)
          [sampleCall 0 false, sampleCall 1 false, sampleCall 2 false] = .ok st
        ∧ storedCounter st 7 = some 3
        ∧ (3 : Int) > maxMissed (sampleParams 4 decThreeQuarters) + 1
        ∧ (5 : Int) > 0 + (sampleParams 4 decThreeQuarters).signedBlocksWindow
        ∧ HandleValidatorSignatureWithParams (sampleStaking false (some ⟨false⟩)) ⟨5, 1000, 1⟩
            st (sampleParams 4 decThreeQuarters) 7 10 true = .ok e
        ∧ e.punished
        ∧ e.calls = [.SlashWithInfractionReason 7 3 10 10000000000000000 .downtime, .Jail 7] := by
  have hb1 := handle_below (sampleStaking false (some ⟨false⟩)) ⟨0, 1000, 1⟩
    (sampleStore (sampleParams 4 decThreeQuarters) 0 0 0) (sampleParams 4 decThreeQuarters)
    7 10 false ⟨7, 0, 0, 0⟩ rfl rfl (by decide) (by decide) (by decide)
  have hb2 := handle_below (sampleStaking false (some ⟨false⟩)) ⟨1, 1000, 1⟩
    (belowEffects ⟨0, 1000, 1⟩ (sampleStore (sampleParams 4 decThreeQuarters) 0 0 0)
      (sampleParams 4 decThreeQuarters) 7 false ⟨7, 0, 0, 0⟩).store
    (sampleParams 4 decThreeQuarters) 7 10 false ⟨7, 0, 0, 1⟩ rfl (by decide) (by decide)
    (by decide) (by decide)
  have hb3 := handle_below (sampleStaking false (some ⟨false⟩)) ⟨2, 1000, 1⟩
    (belowEffects ⟨1, 1000, 1⟩
      (belowEffects ⟨0, 1000, 1⟩ (sampleStore (sampleParams 4 decThreeQuarters) 0 0 0)
        (sampleParams 4 decThreeQuarters) 7 false ⟨7, 0, 0, 0⟩).store
      (sampleParams 4 decThreeQuarters) 7 false ⟨7, 0, 0, 1⟩).store
    (sampleParams 4 decThreeQuarters) 7 10 false ⟨7, 0, 0, 2⟩ rfl (by decide) (by decide)
    (by decide) (by decide)
  have hp := handle_punish (sampleStaking false (some ⟨false⟩)) ⟨5, 1000, 1⟩
    (belowEffects ⟨2, 1000, 1⟩
      (belowEffects ⟨1, 1000, 1⟩
        (belowEffects ⟨0, 1000, 1⟩ (sampleStore (sampleParams 4 decThreeQuarters) 0 0 0)
          (sampleParams 4 decThreeQuarters) 7 false ⟨7, 0, 0, 0⟩).store
        (sampleParams 4 decThreeQuarters) 7 false ⟨7, 0, 0, 1⟩).store
      (sampleParams 4 decThreeQuarters) 7 false ⟨7, 0, 0, 2⟩).store
    (sampleParams 4 decThreeQuarters) 7 10 true ⟨7, 0, 0, 3⟩ ⟨false⟩ rfl (by decide) (by decide)
    (by decide) (by decide) rfl rfl
  refine ⟨_, _, ?_, ?_, by decide, by decide, hp, punishEffects_punished _ _ _ _ _ _ _ _,
    by decide⟩
  · simp only [runCalls, sampleCall, hb1, hb2, hb3]
  · decide

/-- C22. `Keeper.SlashWithInfractionReason` makes exactly one call to the staking
keeper, `SlashWithInfractionReason(consAddr, distributionHeight, power, fraction,
infraction)`: its own distribution height as the height, its own power as the
power, its own fraction as the fraction. `Keeper.Slash` does the same with the
unspecified infraction. The single event has type `slash` and carries the
address, the power, the reason (`double_sign` for a double sign,
`missing_signature` for downtime, `unspecified` for every other value) and the
burned coins the staking keeper returned for those arguments. -/
theorem slash_forwards_arguments (sk : StakingKeeper) (consAddr : ConsAddress)
    (fraction : Dec) (power distributionHeight : Int) (infraction : Infraction) :
    (Keeper.SlashWithInfractionReason sk consAddr fraction power distributionHeight
        infraction).calls
        = [StakingCall.SlashWithInfractionReason consAddr distributionHeight power fraction
            infraction]
      ∧ Keeper.Slash sk consAddr fraction power distributionHeight
          = Keeper.SlashWithInfractionReason sk consAddr fraction power distributionHeight
              .unspecified
      ∧ (Keeper.Slash sk consAddr fraction power distributionHeight).calls
          = [StakingCall.SlashWithInfractionReason consAddr distributionHeight power fraction
              .unspecified]
      ∧ (Keeper.SlashWithInfractionReason sk consAddr fraction power distributionHeight
          infraction).events
          = [{ type := .slash
               attributes :=
                 [(.address, .addr consAddr), (.power, .num power),
                  (.reason,
                    if infraction = .doubleSign then AttributeValue.doubleSign
                    else if infraction = .downtime then AttributeValue.missingSignature
                    else AttributeValue.unspecified),
                  (.burnedCoins,
                    .num (sk.coinsBurned consAddr distributionHeight power fraction
                      infraction))] }] := by
  refine ⟨rfl, rfl, rfl, ?_⟩
  cases infraction <;> simp [Keeper.SlashWithInfractionReason]

/-- C23, the code at the failing input: with `iterationLimit = 0` and the pruning
key present, a call on a store in which the first validator has three deprecated
entries deletes one of them, which is more than the limit. -/
theorem pruning_exceeds_zero_limit :
    DeleteDeprecatedValidatorMissedBlockBitArray
        { isPruning := true, validators := [(7, [0, 1, 2])] } 0
      = { isPruning := true, validators := [(7, [1, 2])] }
    ∧ deletedEntries { isPruning := true, validators := [(7, [0, 1, 2])] } 0 = 1 := by
  decide

/-- C24, the code at the failing input: with `iterationLimit = 0` and the pruning
key present, a call on a store in which the first validator has no deprecated
entry and the second has one stops after the first validator, has deleted
nothing, and removes the pruning key although the entry of the second validator
remains. -/
theorem marker_removed_with_entries_left :
    DeleteDeprecatedValidatorMissedBlockBitArray
        { isPruning := true, validators := [(1, []), (2, [5])] } 0
      = { isPruning := false, validators := [(1, []), (2, [5])] }
    ∧ countEntries
        (DeleteDeprecatedValidatorMissedBlockBitArray
          { isPruning := true, validators := [(1, []), (2, [5])] } 0).validators = 1 := by
  decide

end Slashing

namespace Vesting

/-- The loop of `create-periodic-vesting-account` rejects a period whose coins
parse and whose length is negative. -/
theorem createPeriodic_rejects_negative {Coins : Type}
    (parse : String → Except String Coins) (i : Nat) (p : InputPeriod)
    (rest : List InputPeriod) (periods : List (Period Coins)) (amount : Coins)
    (hparse : parse p.Coins = .ok amount) (hneg : p.Length < 0) :
    createPeriodicPeriodsFrom parse i (p :: rest) periods
      = .error (.invalidPeriodLength p.Length i) := by
  simp [createPeriodicPeriodsFrom, hparse, hneg]

/-- The loop of `readScheduleFile` rejects a period whose coins parse and whose
length is below 1. -/
theorem readSchedule_rejects_nonpositive {Coins : Type}
    (parse : String → Except String Coins) (i : Nat) (p : InputPeriod)
    (rest : List InputPeriod) (periods : List (Period Coins)) (amount : Coins)
    (hparse : parse p.Coins = .ok amount) (hlen : p.Length ≤ 0) :
    readSchedulePeriodsFrom parse i (p :: rest) periods
      = .error (.invalidPeriodLength p.Length i) := by
  have h1 : p.Length < 1 := by omega
  simp [readSchedulePeriodsFrom, hparse, h1]

/-- C25, the code at the failing input: a single period with `length_seconds = 0`
whose coins parse passes the loop of `create-periodic-vesting-account`, which
returns the period of length 0, whereas the loop of `readScheduleFile` rejects
the same input with the invalid-period-length error. -/
theorem zero_length_period_accepted {Coins : Type}
    (parse : String → Except String Coins) (coins : String) (amount : Coins)
    (hparse : parse coins = .ok amount) :
    createPeriodicPeriods parse [{ Coins := coins, Length := 0 }]
        = .ok [{ Length := 0, Amount := amount }]
      ∧ readSchedulePeriods parse [{ Coins := coins, Length := 0 }]
        = .error (.invalidPeriodLength 0 0) := by
  constructor
  · simp [createPeriodicPeriods, createPeriodicPeriodsFrom, hparse]
  · simp [readSchedulePeriods, readSchedulePeriodsFrom, hparse]

/-- Witness of C25: the period `10test` with length 0. -/
theorem zero_length_period_accepted_witness :
    createPeriodicPeriods sampleParseCoins [{ Coins := "10test", Length := 0 }]
        = .ok [{ Length := 0, Amount := "10test" }]
      ∧ readSchedulePeriods sampleParseCoins [{ Coins := "10test", Length := 0 }]
        = .error (.invalidPeriodLength 0 0) :=
  zero_length_period_accepted sampleParseCoins "10test" "10test"
    (by simp [sampleParseCoins])

end Vesting
